import Mathlib

set_option maxHeartbeats 1000000
set_option linter.unusedVariables false

/-!
Verification development for the scheduling core of the Kalender repository.

The embedding models wall-clock instants as integers counting whole minutes
from an arbitrary epoch that falls on a midnight.  All timestamps handled by
the service layer are normalised to whole minutes (seconds and microseconds
are zeroed before any slot conversion), so this integer model is exact for
the code under study.

The embedded code:
  - app/scheduler/cp_lns.py   (time indexer, CP-SAT model construction,
                               solution decoding),
  - app/scheduler/swo.py      (SWO greedy construction and result building),
  - app/services/scheduling.py (task segmentation and result remapping).

The CP-SAT solver itself is the external ortools library.  It is modelled by
its contract: on a non-empty request the scheduler either reports the model
infeasible or returns a solution satisfying every constraint posted on the
model.  The predicate cpFeasible below is the literal translation of the
constraints posted in CPLNSScheduler.schedule, and claims about the CP
scheduler quantify over all solutions satisfying it (optimality is modelled
separately by cpOptimal where a claim needs it).
-/

/-! ## Time indexer (class _TimeIndexer in cp_lns.py and swo.py) -/

/-- Embedding of _TimeIndexer.to_slot: floor((t - base) / granularity).
Int division in Lean is euclidean division, which agrees with Python floor
division for a positive divisor. -/
def toSlot (base g t : Int) : Int := (t - base) / g

/-- Embedding of _TimeIndexer.to_slot_ceiling: ceil((t - base) / granularity). -/
def toSlotCeil (base g t : Int) : Int := -((base - t) / g)

/-- Embedding of _TimeIndexer.to_datetime: base + slot * granularity. -/
def toDatetime (base g s : Int) : Int := base + s * g

/-- Embedding of _TimeIndexer.duration_to_slots: max(1, ceil(minutes / granularity)). -/
def durationToSlots (g m : Int) : Int := max 1 (toSlotCeil 0 g m)

/-- Embedding of dataclass ScheduleTask.  preferred_windows is carried for
faithfulness; no code path under verification reads it. -/
structure ScheduleTask where
  taskId : String
  durationMinutes : Int
  earliestStart : Int
  due : Int
  priority : Int
  preferredWindows : Option (List (Int × Int)) := none
  fixedStart : Option Int := none
deriving DecidableEq

/-- Embedding of dataclass ScheduleMeeting. -/
structure ScheduleMeeting where
  meetingId : String
  start : Int
  stop : Int
deriving DecidableEq

/-- Embedding of dataclass ScheduleRequest.  The previous_assignments dict is
modelled as an association list with first-match lookup; the service builds it
with pairwise-distinct keys, for which the two representations agree. -/
structure ScheduleRequest where
  tasks : List ScheduleTask
  meetings : List ScheduleMeeting
  previousAssignments : List (String × Int × Int) := []
  neighborhoodWindow : Option (Int × Int) := none

/-- Embedding of dataclass AssignedTask. -/
structure AssignedTask where
  taskId : String
  start : Int
  stop : Int
  deviationMinutes : Int
  tardinessMinutes : Int
deriving DecidableEq

/-- Embedding of dataclass ScheduleResult. -/
structure ScheduleResult where
  assignments : List AssignedTask
  unscheduledTasks : List String
  objectiveValue : Option Int
deriving DecidableEq

/-- Lookup in the previous_assignments mapping (dict.get). -/
def lookupPrev (previous : List (String × Int × Int)) (id : String) : Option (Int × Int) :=
  (previous.find? (fun p => p.1 == id)).map (fun p => p.2)

/-- Python min over a non-empty list of candidates (0 is returned on the empty
list, which both schedulers rule out by the empty-request early return). -/
def listMin : List Int → Int
  | [] => 0
  | x :: xs => xs.foldl min x

/-- Minimum of all task earliest starts and meeting starts
(base_start before grid alignment). -/
def rawBase (req : ScheduleRequest) : Int :=
  listMin (req.tasks.map (fun t => t.earliestStart) ++ req.meetings.map (fun m => m.start))

/-- Grid-aligned base: seconds are already zero in the minute model, and the
minute-of-hour offset modulo the granularity is subtracted. -/
def reqBase (g : Int) (req : ScheduleRequest) : Int :=
  rawBase req - (rawBase req % 60) % g

/-- Latest relevant instant: max of task dues and meeting ends, with the base
as default. -/
def horizonEndInstant (g : Int) (req : ScheduleRequest) : Int :=
  max (req.tasks.foldl (fun acc t => max acc t.due) (reqBase g req))
    (req.meetings.foldl (fun acc m => max acc m.stop) (reqBase g req))

/-- Number of slots in the planning horizon. -/
def horizonSlots (g : Int) (req : ScheduleRequest) : Int :=
  max (toSlotCeil (reqBase g req) g (horizonEndInstant g req) + 10) 10

/-- One chunk of the segmentation loop body: chunk = min(120, remaining),
shrunk when the leftover would fall below the 15-minute minimum, then clamped
to [15, remaining]. -/
def segChunk (remaining : Nat) : Nat :=
  let chunk0 := min 120 remaining
  let remainder0 := remaining - chunk0
  let chunk1 :=
    if 0 < remainder0 ∧ remainder0 < 15 then
      chunk0 - min (15 - remainder0) (chunk0 - 15)
    else chunk0
  max 15 (min chunk1 remaining)

/-- The while-loop of _segment_duration, written with a structural fuel
bound so that it evaluates by kernel reduction; the remaining amount itself
bounds the iteration count because every chunk is at least one minute. -/
def segChunksAux : Nat → Nat → List Nat
  | 0, _ => []
  | fuel + 1, remaining =>
    if 0 < remaining then
      segChunk remaining :: segChunksAux fuel (remaining - segChunk remaining)
    else []

/-- The while-loop of _segment_duration. -/
def segChunks (remaining : Nat) : List Nat := segChunksAux remaining remaining

/-- Embedding of _segment_duration. -/
def segmentDuration (totalMinutes : Nat) : List Nat :=
  segChunks (max totalMinutes 15)

/-- mapping.get(task_id, task_id): association-list lookup defaulting to the
key itself. -/
def getRoot (mapping : List (String × String)) (id : String) : String :=
  ((mapping.find? (fun p => p.1 == id)).map (fun p => p.2)).getD id

/-- Embedding of _remap_schedule_result.  The Python sorted() over the set of
remapped unscheduled ids is modelled as dedup followed by an insertion sort
under the lexicographic string order; on pairwise-distinct keys every correct
sort produces the same list. -/
def remapScheduleResult (result : ScheduleResult) (mapping : List (String × String)) :
    ScheduleResult :=
  { assignments := result.assignments.map (fun a => { a with taskId := getRoot mapping a.taskId }),
    unscheduledTasks :=
      ((result.unscheduledTasks.map (getRoot mapping)).dedup).insertionSort (fun a b => a ≤ b),
    objectiveValue := result.objectiveValue }

/-- Solver-id fan-out of the service: the first segment reuses the root id,
segment k (k at least 2) gets the id root::segk; every segment maps to its
root. -/
def segmentIds (rootId : String) (segCount : Nat) : List String :=
  (List.range segCount).map (fun k => if k = 0 then rootId else rootId ++ "::seg" ++ toString (k + 1))

/-- The schedule_mapping dict built in SchedulingService._run_with_scheduler:
every generated segment id maps to its root task id. -/
def buildMapping (roots : List (String × Nat)) : List (String × String) :=
  roots.flatMap (fun p => (segmentIds p.1 p.2).map (fun s => (s, p.1)))

/-- Configuration slice of SWOScheduler used by the embedded code paths. -/
structure SWOConfig where
  granularity : Int
  workStart : Int
  workStop : Int
  unscheduledPenalty : Int

/-- Embedding of dataclass _SegmentInfo. -/
structure SegmentInfo where
  task : ScheduleTask
  durationSlots : Int
  earliestSlot : Int
  latestStartSlot : Int
  dueSlot : Int
  previousStartSlot : Option Int
deriving DecidableEq

/-- Per-task slot data computed at the top of SWOScheduler.schedule. -/
def buildSegmentInfo (g base horizon : Int) (previous : List (String × Int × Int))
    (task : ScheduleTask) : SegmentInfo :=
  let dur := durationToSlots g task.durationMinutes
  let e := toSlotCeil base g task.earliestStart
  let d := toSlotCeil base g task.due
  { task := task
    durationSlots := dur
    earliestSlot := e
    latestStartSlot := max e (min (d - dur) (horizon - dur))
    dueSlot := d
    previousStartSlot := (lookupPrev previous task.taskId).map (fun p => toSlot base g p.1) }

/-- Minute-of-day of an instant (the epoch is a midnight). -/
def minuteOfDay (t : Int) : Int := t % 1440

/-- The slot-start working-hours test of the base-occupancy loop:
hour + minute / 60 outside [work_start, work_end) at the slot start instant. -/
def outsideWorkB (ws we t : Int) : Bool :=
  decide (minuteOfDay t < ws * 60) || decide (we * 60 ≤ minuteOfDay t)

/-- Base occupancy bitmap of SWOScheduler.schedule, as a characteristic
function over slots (the Python list is only read at indices in [0, horizon),
where the two representations agree). -/
def baseOccupancy (cfg : SWOConfig) (req : ScheduleRequest) (base horizon : Int)
    (slot : Int) : Bool :=
  ((decide (0 < cfg.workStart) || decide (cfg.workStop < 24)) &&
      outsideWorkB cfg.workStart cfg.workStop (toDatetime base cfg.granularity slot)) ||
    req.meetings.any (fun m =>
      decide (max 0 (toSlot base cfg.granularity m.start) ≤ slot) &&
        decide (slot < min horizon (toSlotCeil base cfg.granularity m.stop)))

/-- All slots of [a, b) are free in the occupancy. -/
def rangeFree (occ : Int → Bool) (a b : Int) : Bool :=
  (List.range (b - a).toNat).all (fun k => !occ (a + (k : Int)))

/-- The scanning loop of SWOScheduler._find_slot, starting at a given slot.
The loop runs at most latest_start + 1 - slot times, which the structural
fuel parameter bounds so that the function evaluates by kernel reduction. -/
def findSlotFrom : Nat → Int → Int → Int → (Int → Bool) → Int → Option Int
  | 0, _, _, _, _, _ => none
  | fuel + 1, dueSlot, dur, latestStart, occ, slot =>
    if slot ≤ latestStart then
      if dueSlot < slot + dur then findSlotFrom fuel dueSlot dur latestStart occ (slot + 1)
      else if rangeFree occ slot (slot + dur) then some slot
      else findSlotFrom fuel dueSlot dur latestStart occ (slot + 1)
    else none

/-- Embedding of SWOScheduler._find_slot. -/
def findSlot (info : SegmentInfo) (occ : Int → Bool) (horizon : Int) : Option Int :=
  findSlotFrom
    ((min info.latestStartSlot (horizon - info.durationSlots) + 1 - info.earliestSlot).toNat)
    info.dueSlot info.durationSlots
    (min info.latestStartSlot (horizon - info.durationSlots)) occ info.earliestSlot

/-- The candidate predicate scanned by _find_slot. -/
def SlotOk (dueSlot dur latestStart : Int) (occ : Int → Bool) (s : Int) : Prop :=
  s ≤ latestStart ∧ s + dur ≤ dueSlot ∧ rangeFree occ s (s + dur) = true

/-- State threaded through SWOScheduler._construct_schedule: the occupancy
bitmap, the assignment dict (insertion-ordered, keyed by segment info), and
the unscheduled id list. -/
structure ConsState where
  occ : Int → Bool
  assignments : List (SegmentInfo × Int)
  unscheduled : List String

/-- Mark all slots of [a, b) occupied. -/
def markRange (occ : Int → Bool) (a b : Int) : Int → Bool :=
  fun i => if a ≤ i ∧ i < b then true else occ i

/-- Body of the per-task loop in _construct_schedule. -/
def constructStep (horizon : Int) (st : ConsState) (info : SegmentInfo) : ConsState :=
  match findSlot info st.occ horizon with
  | none => { st with unscheduled := st.unscheduled ++ [info.task.taskId] }
  | some s =>
      { occ := markRange st.occ s (s + info.durationSlots)
        assignments := st.assignments ++ [(info, s)]
        unscheduled := st.unscheduled }

/-- Embedding of SWOScheduler._construct_schedule: one greedy pass over the
given task order on a fresh copy of the base occupancy. -/
def constructSchedule (horizon : Int) (occ0 : Int → Bool) (infos : List SegmentInfo) :
    ConsState :=
  infos.foldl (constructStep horizon) ⟨occ0, [], []⟩

/-- SWO tardiness: int((end - due).total_seconds() / 60) when the end exceeds
the due instant, else 0; exact in the whole-minute model. -/
def swoTardiness (due stop : Int) : Int :=
  if due < stop then stop - due else 0

/-- Per-assignment decoding of SWOScheduler._build_result. -/
def buildAssigned (g base : Int) (p : SegmentInfo × Int) : AssignedTask :=
  { taskId := p.1.task.taskId
    start := toDatetime base g p.2
    stop := toDatetime base g (p.2 + p.1.durationSlots)
    deviationMinutes :=
      match p.1.previousStartSlot with
      | some ps => |p.2 - ps| * g
      | none => 0
    tardinessMinutes := swoTardiness p.1.task.due (toDatetime base g (p.2 + p.1.durationSlots)) }

/-- Embedding of SWOScheduler._build_result (the objective is written by the
caller afterwards). -/
def buildResult (g base : Int) (st : ConsState) : ScheduleResult :=
  { assignments :=
      (st.assignments.map (buildAssigned g base)).insertionSort (fun a b => a.start ≤ b.start)
    unscheduledTasks := st.unscheduled
    objectiveValue := none }

/-- One full SWO iteration: build segment infos for the given order, run the
construction pass over the base occupancy, decode. -/
def swoIteration (cfg : SWOConfig) (req : ScheduleRequest) (order : List ScheduleTask) :
    ScheduleResult :=
  let g := cfg.granularity
  let base := reqBase g req
  let horizon := horizonSlots g req
  buildResult g base
    (constructSchedule horizon (baseOccupancy cfg req base horizon)
      (order.map (buildSegmentInfo g base horizon req.previousAssignments)))

/-- The best-result tracking of the SWO iteration loop.  The loop updates the
best result when the unscheduled count strictly decreases, or ties with a
strictly lower objective; the objective equals unscheduled_count times the
unscheduled penalty, so a tie in count can never lower the objective and the
update condition reduces to a strict decrease of the count. -/
def swoBestPick : List ScheduleResult → Option ScheduleResult :=
  List.foldl
    (fun best r =>
      match best with
      | none => some r
      | some b =>
          if r.unscheduledTasks.length < b.unscheduledTasks.length then some r else some b)
    none

/-- Embedding of SWOScheduler.schedule.  The sequence of task orders explored
by the loop is supplied as an oracle: the initial order is a sort of the task
list and each reorder is a sort under the float-valued penalties, so every
explored order is a permutation of the request tasks; all claims proved below
hold for every choice of orders.  On an empty request the method returns the
empty success result before any iteration. -/
def swoSchedule (cfg : SWOConfig) (req : ScheduleRequest)
    (orders : List (List ScheduleTask)) : ScheduleResult :=
  if req.tasks.isEmpty then
    { assignments := [], unscheduledTasks := [], objectiveValue := some 0 }
  else
    match swoBestPick (orders.map (swoIteration cfg req)) with
    | some r =>
        { assignments := r.assignments
          unscheduledTasks := r.unscheduledTasks
          objectiveValue := some ((r.unscheduledTasks.length : Int) * cfg.unscheduledPenalty) }
    | none =>
        { assignments := []
          unscheduledTasks := req.previousAssignments.map (fun p => p.1)
          objectiveValue := none }

/-- Slot-level disjointness of two recorded assignments. -/
def asgnDisjoint (p q : SegmentInfo × Int) : Prop :=
  p.2 + p.1.durationSlots ≤ q.2 ∨ q.2 + q.1.durationSlots ≤ p.2

/-- Window facts recorded for one placed assignment: at or after the earliest
slot, within the latest-start bound capped by the horizon, and ending by the
due slot. -/
def consAsgnOk (horizon : Int) (p : SegmentInfo × Int) : Prop :=
  p.1.earliestSlot ≤ p.2 ∧
    p.2 ≤ min p.1.latestStartSlot (horizon - p.1.durationSlots) ∧
    p.2 + p.1.durationSlots ≤ p.1.dueSlot

/-- Inductive invariant of the construction pass: assignments are pairwise
disjoint, their slots are marked in the current occupancy, the current
occupancy extends the base occupancy, and every assignment was carved out of
slots free in the base occupancy. -/
def consInv (occ0 : Int → Bool) (st : ConsState) : Prop :=
  st.assignments.Pairwise asgnDisjoint ∧
    (∀ p ∈ st.assignments, 0 < p.1.durationSlots) ∧
    (∀ p ∈ st.assignments, ∀ i, p.2 ≤ i → i < p.2 + p.1.durationSlots → st.occ i = true) ∧
    (∀ i, occ0 i = true → st.occ i = true) ∧
    (∀ p ∈ st.assignments, ∀ i, p.2 ≤ i → i < p.2 + p.1.durationSlots → occ0 i = false)

/-- Configuration slice of CPLNSScheduler used by the embedded code paths. -/
structure CPConfig where
  granularity : Int
  tardinessWeight : Int
  stabilityWeight : Int
  startTimeWeight : Int
  unscheduledWeight : Int
  workStart : Int
  workStop : Int

/-- A valuation of the per-task CP-SAT decision variables, keyed by task id
exactly as the Python var dicts are. -/
structure CPSol where
  startv : String → Int
  stopv : String → Int
  presence : String → Int
  tard : String → Int
  dev : String → Int

/-- duration_slots of a task. -/
def cpDur (g : Int) (t : ScheduleTask) : Int := durationToSlots g t.durationMinutes

/-- earliest_slot after the max(0, ...) clamp. -/
def cpEarliest (base g : Int) (t : ScheduleTask) : Int := max 0 (toSlot base g t.earliestStart)

/-- to_slot_ceiling(task.due). -/
def cpDueCeil (base g : Int) (t : ScheduleTask) : Int := toSlotCeil base g t.due

/-- latest_start_slot after both clamps. -/
def cpLatest (base g horizon : Int) (t : ScheduleTask) : Int :=
  max (cpEarliest base g t) (min (cpDueCeil base g t - cpDur g t) (horizon - cpDur g t))

/-- The previous_start_slot consulted by the deviation constraints: the fixed
slot when fixed_start is set, else the slot of the previous assignment. -/
def cpPrevSlot (base g : Int) (previous : List (String × Int × Int)) (t : ScheduleTask) :
    Option Int :=
  match t.fixedStart with
  | some f => some (toSlot base g f)
  | none => (lookupPrev previous t.taskId).map (fun q => toSlot base g q.1)

/-- All constraints posted on the model for one task, evaluated on a
valuation: variable domains, the optional-interval link between start and
end, the due-window constraints, fixed-start pinning, the LNS freeze outside
the neighborhood window, forced presence for new tasks, and the tardiness and
deviation constraints. -/
def cpTaskOkB (g base horizon : Int) (previous : List (String × Int × Int))
    (window : Option (Int × Int)) (sol : CPSol) (t : ScheduleTask) : Bool :=
  let id := t.taskId
  let dur := cpDur g t
  let e := cpEarliest base g t
  let l := cpLatest base g horizon t
  let dc := cpDueCeil base g t
  let st := sol.startv id
  let en := sol.stopv id
  let p := sol.presence id
  let ta := sol.tard id
  let dv := sol.dev id
  decide (e ≤ st) && decide (st ≤ l) &&
    decide (e + dur ≤ en) && decide (en ≤ horizon) &&
    decide (p = 0 ∨ p = 1) &&
    decide (p = 1 → en = st + dur) &&
    decide (p = 1 → e ≤ st) &&
    decide (p = 1 → en ≤ dc) &&
    (match t.fixedStart with
     | some f => decide (st = toSlot base g f ∧ p = 1)
     | none =>
       match window, (lookupPrev previous id).map (fun q => toSlot base g q.1) with
       | some w, some ps =>
           if toSlot base g w.1 ≤ ps ∧ ps ≤ toSlotCeil base g w.2 then true
           else decide (st = ps ∧ p = 1)
       | _, _ => true) &&
    (match lookupPrev previous id, t.fixedStart with
     | none, none => decide (p = 1)
     | _, _ => true) &&
    decide (0 ≤ ta) && decide (ta ≤ horizon) &&
    decide (p = 1 → en - dc ≤ ta) &&
    decide (p = 0 → ta = 0) &&
    decide (0 ≤ dv) && decide (dv ≤ horizon) &&
    (match cpPrevSlot base g previous t with
     | some ps => decide (st - ps ≤ dv ∧ ps - st ≤ dv)
     | none => decide (dv = 0))

/-- Meeting duration in slots: max(1, ceil of the length in minutes)
converted by duration_to_slots. -/
def meetingDurSlots (g : Int) (m : ScheduleMeeting) : Int :=
  durationToSlots g (max 1 (m.stop - m.start))

/-- The fixed interval added for a meeting. -/
def cpMeetingInterval (base g : Int) (m : ScheduleMeeting) : Int × Int :=
  (toSlot base g m.start, toSlot base g m.start + meetingDurSlots g m)

/-- add_block_interval: clamp to the horizon and skip empty blocks. -/
def blockClamped (base g horizon s e : Int) : List (Int × Int) :=
  let a := max 0 (toSlot base g s)
  let b := min horizon (toSlotCeil base g e)
  if a < b then [(a, b)] else []

/-- The two candidate non-working blocks of one calendar day starting at
midnight instant day. -/
def dayBlocks (base g horizon ws we day : Int) : List (Int × Int) :=
  blockClamped base g horizon day (day + ws * 60) ++
    blockClamped base g horizon (day + we * 60) (day + 1440)

/-- The day loop emitting non-working blocks while the day start is before
the horizon end instant, with a structural fuel bound on the number of days
so that the function evaluates by kernel reduction. -/
def blocksFromAux : Nat → Int → Int → Int → Int → Int → Int → Int → List (Int × Int)
  | 0, _, _, _, _, _, _, _ => []
  | fuel + 1, base, g, horizon, ws, we, stopAt, day =>
    if day < stopAt then
      dayBlocks base g horizon ws we day ++
        blocksFromAux fuel base g horizon ws we stopAt (day + 1440)
    else []

/-- The day loop emitting non-working blocks while the day start is before
the horizon end instant. -/
def blocksFrom (base g horizon ws we stopAt day : Int) : List (Int × Int) :=
  blocksFromAux ((stopAt - day).toNat + 1) base g horizon ws we stopAt day

/-- All non-working blocks: emitted only when the working day does not span
the full 24 hours, starting from the midnight of the base day. -/
def cpBlocks (g ws we base horizon : Int) : List (Int × Int) :=
  if 0 < ws ∨ we < 24 then
    blocksFrom base g horizon ws we (toDatetime base g horizon) (base - minuteOfDay base)
  else []

/-- The intervals participating in AddNoOverlap, with optional task intervals
filtered by their presence literal: present tasks, meetings, blocks. -/
def cpIntervals (cfg : CPConfig) (req : ScheduleRequest) (sol : CPSol) : List (Int × Int) :=
  let g := cfg.granularity
  let base := reqBase g req
  let horizon := horizonSlots g req
  req.tasks.filterMap (fun t =>
      if sol.presence t.taskId = 1 then
        some (sol.startv t.taskId, sol.startv t.taskId + cpDur g t)
      else none) ++
    req.meetings.map (cpMeetingInterval base g) ++
    cpBlocks g cfg.workStart cfg.workStop base horizon

/-- Slot-range disjointness of two intervals. -/
def slotDisjoint (p q : Int × Int) : Prop := p.2 ≤ q.1 ∨ q.2 ≤ p.1

instance : DecidableRel slotDisjoint := fun p q => by
  unfold slotDisjoint
  infer_instance

/-- A valuation satisfies the CP-SAT model built by CPLNSScheduler.schedule:
every per-task constraint holds and the NoOverlap constraint holds. -/
def cpFeasible (cfg : CPConfig) (req : ScheduleRequest) (sol : CPSol) : Prop :=
  req.tasks.all
      (cpTaskOkB cfg.granularity (reqBase cfg.granularity req) (horizonSlots cfg.granularity req)
        req.previousAssignments req.neighborhoodWindow sol) = true ∧
    (cpIntervals cfg req sol).Pairwise slotDisjoint

/-- The linear objective minimized by the model. -/
def cpObjective (cfg : CPConfig) (req : ScheduleRequest) (sol : CPSol) : Int :=
  (req.tasks.map (fun t =>
    cfg.unscheduledWeight * (1 - sol.presence t.taskId) +
      cfg.tardinessWeight * t.priority * sol.tard t.taskId +
      cfg.stabilityWeight * sol.dev t.taskId +
      cfg.startTimeWeight * t.priority * sol.startv t.taskId)).sum

/-- A feasible valuation of minimum objective (what CP-SAT returns when it
proves optimality). -/
def cpOptimal (cfg : CPConfig) (req : ScheduleRequest) (sol : CPSol) : Prop :=
  cpFeasible cfg req sol ∧
    ∀ s2, cpFeasible cfg req s2 → cpObjective cfg req sol ≤ cpObjective cfg req s2

/-- Decoding of a solver valuation into a ScheduleResult
(lines 293-319 of cp_lns.py). -/
def cpDecode (cfg : CPConfig) (req : ScheduleRequest) (sol : CPSol) : ScheduleResult :=
  let g := cfg.granularity
  let base := reqBase g req
  { assignments :=
      (req.tasks.filterMap (fun t =>
        if sol.presence t.taskId = 0 then none
        else
          some
            { taskId := t.taskId
              start := toDatetime base g (sol.startv t.taskId)
              stop := toDatetime base g (sol.stopv t.taskId)
              deviationMinutes := sol.dev t.taskId * g
              tardinessMinutes := sol.tard t.taskId * g })).insertionSort
        (fun a b => a.start ≤ b.start)
    unscheduledTasks :=
      req.tasks.filterMap (fun t => if sol.presence t.taskId = 0 then some t.taskId else none)
    objectiveValue := none }

/-- Outcome of one CP-SAT solver invocation: either no feasible solution
within the time limit, or a feasible valuation, with a flag recording whether
optimality was proved. -/
inductive CPOutcome where
  | infeasible
  | solved (sol : CPSol) (optimal : Bool)

/-- Embedding of CPLNSScheduler.schedule, parametrized by the solver
outcome.  Claims add the hypothesis that a solved outcome satisfies
cpFeasible (respectively cpOptimal), which is the contract of CP-SAT. -/
def cpSchedule (cfg : CPConfig) (req : ScheduleRequest) (outcome : CPOutcome) :
    ScheduleResult :=
  if req.tasks.isEmpty then
    { assignments := [], unscheduledTasks := [], objectiveValue := some 0 }
  else
    match outcome with
    | CPOutcome.infeasible =>
        { assignments := []
          unscheduledTasks := req.tasks.map (fun t => t.taskId)
          objectiveValue := none }
    | CPOutcome.solved sol opt =>
        { assignments := (cpDecode cfg req sol).assignments
          unscheduledTasks := (cpDecode cfg req sol).unscheduledTasks
          objectiveValue := if opt then some (cpObjective cfg req sol) else none }

/-- Default CP configuration (granularity 5, default weights, working day
9-17). -/
def wcpCfg : CPConfig :=
  { granularity := 5, tardinessWeight := 200, stabilityWeight := 30, startTimeWeight := 1,
    unscheduledWeight := 10000, workStart := 9, workStop := 17 }

/-- Default SWO configuration (granularity 15, working day 9-17). -/
def wswoCfg : SWOConfig :=
  { granularity := 15, workStart := 9, workStop := 17, unscheduledPenalty := 10000 }

/-- A one-hour task on the slot grid: Monday 09:00 to 12:00 window (minutes
from a midnight epoch). -/
def wTask : ScheduleTask :=
  { taskId := "a", durationMinutes := 60, earliestStart := 540, due := 720, priority := 5,
    preferredWindows := none, fixedStart := none }

def wReq : ScheduleRequest :=
  { tasks := [wTask], meetings := [], previousAssignments := [], neighborhoodWindow := none }

/-- A feasible valuation for wReq: the task present in slots [0, 12). -/
def wSol : CPSol :=
  { startv := fun _ => 0, stopv := fun _ => 12, presence := fun _ => 1,
    tard := fun _ => 0, dev := fun _ => 0 }

/-- Task with an off-grid earliest start 09:03. -/
def cxTask3 : ScheduleTask :=
  { taskId := "t1", durationMinutes := 15, earliestStart := 543, due := 603, priority := 5,
    preferredWindows := none, fixedStart := none }

def cxReq3 : ScheduleRequest :=
  { tasks := [cxTask3], meetings := [], previousAssignments := [], neighborhoodWindow := none }

/-- Feasible valuation placing cxTask3 at slot 0, i.e. 09:00, before its
earliest start 09:03. -/
def cxSol3 : CPSol :=
  { startv := fun _ => 0, stopv := fun _ => 3, presence := fun _ => 1,
    tard := fun _ => 0, dev := fun _ => 0 }

/-- Task of 50 minutes, not a multiple of the 15-minute SWO granularity. -/
def cxTask4 : ScheduleTask :=
  { taskId := "t1", durationMinutes := 50, earliestStart := 540, due := 720, priority := 5,
    preferredWindows := none, fixedStart := none }

def cxReq4 : ScheduleRequest :=
  { tasks := [cxTask4], meetings := [], previousAssignments := [], neighborhoodWindow := none }

/-- Pinning instance: previous start 09:03 (off grid), neighborhood window
10:00-11:00, so the previous start slot 0 is outside the window slots. -/
def cxTask5 : ScheduleTask :=
  { taskId := "t1", durationMinutes := 15, earliestStart := 540, due := 720, priority := 5,
    preferredWindows := none, fixedStart := none }

def cxReq5 : ScheduleRequest :=
  { tasks := [cxTask5], meetings := [], previousAssignments := [("t1", (543, 558))],
    neighborhoodWindow := some (600, 660) }

def cxSol5 : CPSol :=
  { startv := fun _ => 0, stopv := fun _ => 3, presence := fun _ => 1,
    tard := fun _ => 0, dev := fun _ => 0 }

/-- Fixed-start task for the SWO counterexample and the CP witness. -/
def w8task : ScheduleTask :=
  { taskId := "t1", durationMinutes := 60, earliestStart := 540, due := 720, priority := 5,
    preferredWindows := none, fixedStart := some 600 }

def w8req : ScheduleRequest :=
  { tasks := [w8task], meetings := [], previousAssignments := [], neighborhoodWindow := none }

/-- Feasible valuation for w8req pinned at the fixed slot 12 (10:00). -/
def w8sol : CPSol :=
  { startv := fun _ => 12, stopv := fun _ => 24, presence := fun _ => 1,
    tard := fun _ => 0, dev := fun _ => 0 }

/-- Concrete segment info for the C6 witness: 4 slots, window [0, 8], due
slot 12. -/
def w6info : SegmentInfo :=
  { task := wTask, durationSlots := 4, earliestSlot := 0, latestStartSlot := 8,
    dueSlot := 12, previousStartSlot := none }

def w6state : ConsState := { occ := fun _ => false, assignments := [], unscheduled := [] }

/-- Remap instance: one remapped assignment and three unscheduled segment
ids collapsing to two roots. -/
def w9mapping : List (String × String) := [("a", "a"), ("a::seg2", "a"), ("b", "b")]

def w9result : ScheduleResult :=
  { assignments := [AssignedTask.mk "a::seg2" 540 600 0 0]
    unscheduledTasks := ["b", "a::seg2", "a"]
    objectiveValue := some 3 }

/-- The slot-window candidate predicate of claim C6, phrased over the
latest-start bound of the segment info itself. -/
def ValidSlot (info : SegmentInfo) (occ : Int → Bool) (s : Int) : Prop :=
  info.earliestSlot ≤ s ∧ s ≤ info.latestStartSlot ∧
    s + info.durationSlots ≤ info.dueSlot ∧
    rangeFree occ s (s + info.durationSlots) = true

theorem le_toSlot_iff {base g t k : Int} (hg : 0 < g) :
    k ≤ toSlot base g t ↔ toDatetime base g k ≤ t := by
  unfold toSlot toDatetime
  rw [Int.le_ediv_iff_mul_le hg]
  omega

theorem toSlot_lt_iff {base g t k : Int} (hg : 0 < g) :
    toSlot base g t < k ↔ t < toDatetime base g k := by
  unfold toSlot toDatetime
  rw [Int.ediv_lt_iff_lt_mul hg]
  omega

theorem toSlotCeil_le_iff {base g t k : Int} (hg : 0 < g) :
    toSlotCeil base g t ≤ k ↔ t ≤ toDatetime base g k := by
  unfold toSlotCeil toDatetime
  constructor
  · intro h
    have h2 : -k ≤ (base - t) / g := by omega
    have := (Int.le_ediv_iff_mul_le hg).mp h2
    nlinarith
  · intro h
    have h2 : -k * g ≤ base - t := by nlinarith
    have := (Int.le_ediv_iff_mul_le hg).mpr h2
    omega

theorem lt_toSlotCeil_iff {base g t k : Int} (hg : 0 < g) :
    k < toSlotCeil base g t ↔ toDatetime base g k < t := by
  have h := @toSlotCeil_le_iff base g t k hg
  constructor
  · intro hk
    by_contra hc
    have := h.mpr (by omega)
    omega
  · intro hk
    by_contra hc
    have := h.mp (by omega)
    omega

/-- A slot floor never overshoots the instant it indexes. -/
theorem toDatetime_toSlot_le {base g t : Int} (hg : 0 < g) :
    toDatetime base g (toSlot base g t) ≤ t :=
  (le_toSlot_iff hg).mp le_rfl

/-- A slot ceiling never undershoots the instant it indexes. -/
theorem le_toDatetime_toSlotCeil {base g t : Int} (hg : 0 < g) :
    t ≤ toDatetime base g (toSlotCeil base g t) :=
  (toSlotCeil_le_iff hg).mp le_rfl

/-- The slot ceiling overshoots by strictly less than one granule. -/
theorem toDatetime_toSlotCeil_lt {base g t : Int} (hg : 0 < g) :
    toDatetime base g (toSlotCeil base g t) < t + g := by
  by_contra hc
  have h : t + g ≤ toDatetime base g (toSlotCeil base g t) := by omega
  have h2 : toSlotCeil base g t - 1 ≥ 0 ∨ True := Or.inr trivial
  have h3 : toDatetime base g (toSlotCeil base g t - 1) ≥ t := by
    unfold toDatetime at h ⊢
    nlinarith
  have := (@toSlotCeil_le_iff base g t (toSlotCeil base g t - 1) hg).mpr h3
  omega

theorem toSlot_mono {base g t u : Int} (hg : 0 < g) (h : t ≤ u) :
    toSlot base g t ≤ toSlot base g u :=
  Int.ediv_le_ediv hg (by omega)

/-- Any instant inside a half-open interval with integer endpoints has its
slot inside the floor-to-ceiling slot range of that interval. -/
theorem slot_mem_of_mem {base g s e t : Int} (hg : 0 < g)
    (h1 : s ≤ t) (h2 : t < e) :
    toSlot base g s ≤ toSlot base g t ∧ toSlot base g t < toSlotCeil base g e := by
  refine ⟨toSlot_mono hg h1, ?_⟩
  by_contra hc
  have h3 : toSlotCeil base g e ≤ toSlot base g t := by omega
  have h4 := (le_toSlot_iff hg).mp (le_of_eq (rfl : toSlot base g t = toSlot base g t))
  have h5 := @le_toDatetime_toSlotCeil base g e hg
  have h6 : toDatetime base g (toSlotCeil base g e) ≤ toDatetime base g (toSlot base g t) := by
    unfold toDatetime
    nlinarith
  have h7 := @toDatetime_toSlot_le base g t hg
  omega

/-- Loop invariant of the segmentation: started from 0 or from at least 15
remaining minutes, every emitted chunk lies in [15, 120] and the chunks sum
exactly to the remaining amount. -/
theorem segChunksAux_spec (fuel : Nat) :
    ∀ r : Nat, r ≤ fuel → r = 0 ∨ 15 ≤ r →
      (∀ c ∈ segChunksAux fuel r, 15 ≤ c ∧ c ≤ 120) ∧ (segChunksAux fuel r).sum = r := by
  induction fuel with
  | zero =>
    intro r hle hr
    have h0 : r = 0 := by omega
    subst h0
    simp [segChunksAux]
  | succ n ih =>
    intro r hle hr
    rcases hr with hr | hr
    · subst hr
      simp [segChunksAux]
    · have hpos : 0 < r := by omega
      have hchunkdef : segChunk r = max 15 (min (if 0 < r - min 120 r ∧ r - min 120 r < 15 then min 120 r - min (15 - (r - min 120 r)) (min 120 r - 15) else min 120 r) r) := rfl
      have hchunk15 : 15 ≤ segChunk r := le_max_left _ _
      have hchunk120 : segChunk r ≤ 120 := by
        rw [hchunkdef]
        split <;> omega
      have hchunkler : segChunk r ≤ r := by
        rw [hchunkdef]
        split <;> omega
      have hrec : r - segChunk r = 0 ∨ 15 ≤ r - segChunk r := by
        rw [hchunkdef]
        split <;> omega
      obtain ⟨ih1, ih2⟩ := ih (r - segChunk r) (by omega) hrec
      have hstep : segChunksAux (n + 1) r =
          segChunk r :: segChunksAux n (r - segChunk r) := by
        simp [segChunksAux, hpos]
      rw [hstep]
      constructor
      · intro c hc
        rcases List.mem_cons.mp hc with hc | hc
        · omega
        · exact ih1 c hc
      · simp only [List.sum_cons, ih2]
        omega

theorem segChunks_spec (r : Nat) (hr : r = 0 ∨ 15 ≤ r) :
    (∀ c ∈ segChunks r, 15 ≤ c ∧ c ≤ 120) ∧ (segChunks r).sum = r :=
  segChunksAux_spec r r le_rfl hr

theorem rangeFree_iff {occ : Int → Bool} {a b : Int} :
    rangeFree occ a b = true ↔ ∀ i, a ≤ i → i < b → occ i = false := by
  unfold rangeFree
  rw [List.all_eq_true]
  constructor
  · intro h i h1 h2
    have hk : (i - a).toNat < (b - a).toNat := by omega
    have := h (i - a).toNat (List.mem_range.mpr hk)
    have hia : a + ((i - a).toNat : Int) = i := by omega
    rw [hia] at this
    simpa using this
  · intro h k hk
    have hk2 := List.mem_range.mp hk
    have := h (a + (k : Int)) (by omega) (by omega)
    simp [this]

theorem findSlotFrom_some {fuel : Nat} {dueSlot dur latestStart : Int} {occ : Int → Bool}
    {slot s : Int} (hfuel : (latestStart + 1 - slot).toNat ≤ fuel)
    (h : findSlotFrom fuel dueSlot dur latestStart occ slot = some s) :
    slot ≤ s ∧ SlotOk dueSlot dur latestStart occ s ∧
      ∀ u, slot ≤ u → u < s → ¬ SlotOk dueSlot dur latestStart occ u := by
  unfold SlotOk
  induction fuel generalizing slot with
  | zero => cases h
  | succ n ih =>
    by_cases hle : slot ≤ latestStart
    · have hfuel2 : (latestStart + 1 - (slot + 1)).toNat ≤ n := by omega
      by_cases hdue : dueSlot < slot + dur
      · rw [findSlotFrom, if_pos hle, if_pos hdue] at h
        obtain ⟨ih1, ih2, ih3⟩ := ih hfuel2 h
        refine ⟨by omega, ih2, ?_⟩
        intro u h1 h2
        rcases eq_or_lt_of_le h1 with h1 | h1
        · rw [← h1]
          intro hbad
          omega
        · exact ih3 u (by omega) h2
      · by_cases hfree : rangeFree occ slot (slot + dur) = true
        · rw [findSlotFrom, if_pos hle, if_neg hdue, if_pos hfree] at h
          cases h
          exact ⟨le_rfl, ⟨hle, by omega, hfree⟩, by omega⟩
        · rw [findSlotFrom, if_pos hle, if_neg hdue, if_neg hfree] at h
          obtain ⟨ih1, ih2, ih3⟩ := ih hfuel2 h
          refine ⟨by omega, ih2, ?_⟩
          intro u h1 h2
          rcases eq_or_lt_of_le h1 with h1 | h1
          · rw [← h1]
            intro hbad
            exact absurd hbad.2.2 (by simpa using hfree)
          · exact ih3 u (by omega) h2
    · rw [findSlotFrom, if_neg hle] at h
      cases h

theorem findSlotFrom_none {fuel : Nat} {dueSlot dur latestStart : Int} {occ : Int → Bool}
    {slot : Int} (hfuel : (latestStart + 1 - slot).toNat ≤ fuel)
    (h : findSlotFrom fuel dueSlot dur latestStart occ slot = none) :
    ∀ u, slot ≤ u → ¬ SlotOk dueSlot dur latestStart occ u := by
  unfold SlotOk
  induction fuel generalizing slot with
  | zero =>
    intro u h1 hbad
    omega
  | succ n ih =>
    by_cases hle : slot ≤ latestStart
    · have hfuel2 : (latestStart + 1 - (slot + 1)).toNat ≤ n := by omega
      by_cases hdue : dueSlot < slot + dur
      · rw [findSlotFrom, if_pos hle, if_pos hdue] at h
        intro u h1
        rcases eq_or_lt_of_le h1 with h1 | h1
        · rw [← h1]
          intro hbad
          omega
        · exact ih hfuel2 h u (by omega)
      · by_cases hfree : rangeFree occ slot (slot + dur) = true
        · rw [findSlotFrom, if_pos hle, if_neg hdue, if_pos hfree] at h
          cases h
        · rw [findSlotFrom, if_pos hle, if_neg hdue, if_neg hfree] at h
          intro u h1
          rcases eq_or_lt_of_le h1 with h1 | h1
          · rw [← h1]
            intro hbad
            exact absurd hbad.2.2 (by simpa using hfree)
          · exact ih hfuel2 h u (by omega)
    · intro u h1 hbad
      omega

theorem swoBestPick_mem {results : List ScheduleResult} {r : ScheduleResult}
    (h : swoBestPick results = some r) : r ∈ results := by
  unfold swoBestPick at h
  suffices H : ∀ (acc : Option ScheduleResult),
      List.foldl
        (fun best r =>
          match best with
          | none => some r
          | some b =>
              if r.unscheduledTasks.length < b.unscheduledTasks.length then some r else some b)
        acc results = some r →
      (∀ b, acc = some b → b ∈ results ∨ b = r → True) →
      (acc = some r ∨ r ∈ results) by
    rcases H none h (by intros; trivial) with h1 | h1
    · cases h1
    · exact h1
  clear h
  induction results with
  | nil =>
    intro acc h _
    left
    simpa using h
  | cons x xs ih =>
    intro acc h _
    simp only [List.foldl_cons] at h
    rcases acc with _ | b
    · rcases ih (some x) h (by intros; trivial) with h1 | h1
      · right
        simp at h1
        simp [h1]
      · right
        exact List.mem_cons_of_mem _ h1
    · by_cases hlt : x.unscheduledTasks.length < b.unscheduledTasks.length
      · simp only [hlt, if_pos] at h
        rcases ih (some x) h (by intros; trivial) with h1 | h1
        · right
          simp at h1
          simp [h1]
        · right
          exact List.mem_cons_of_mem _ h1
      · simp only [hlt, if_neg, ite_false] at h
        rcases ih (some b) h (by intros; trivial) with h1 | h1
        · left
          simpa using h1
        · right
          exact List.mem_cons_of_mem _ h1

theorem constructStep_inv {horizon : Int} {occ0 : Int → Bool} {st : ConsState}
    {info : SegmentInfo} (hdur : 0 < info.durationSlots) (hinv : consInv occ0 st) :
    consInv occ0 (constructStep horizon st info) ∧
      ∀ p ∈ (constructStep horizon st info).assignments,
        p ∈ st.assignments ∨ (p.1 = info ∧ consAsgnOk horizon p) := by
  obtain ⟨hpw, hpos, hocc, hext, hfree0⟩ := hinv
  cases hfind : findSlot info st.occ horizon with
  | none =>
    simp only [constructStep, hfind]
    exact ⟨⟨hpw, hpos, hocc, hext, hfree0⟩, fun p hp => Or.inl hp⟩
  | some s =>
    simp only [constructStep, hfind]
    obtain ⟨hge, hok, _⟩ := findSlotFrom_some le_rfl hfind
    obtain ⟨hlatest, hdue, hfreecur⟩ := hok
    have hfreecur2 := rangeFree_iff.mp hfreecur
    have hnewok : consAsgnOk horizon (info, s) := ⟨hge, hlatest, hdue⟩
    have hdisj : ∀ q ∈ st.assignments, asgnDisjoint q (info, s) := by
      intro q hq
      by_contra hc
      have hc2 : s < q.2 + q.1.durationSlots ∧ q.2 < s + info.durationSlots := by
        unfold asgnDisjoint at hc
        push_neg at hc
        exact hc
      -- q is occupied on its range while the new range is free; with positive
      -- durations an arithmetic overlap yields a common slot.
      have hqdur : 0 < q.1.durationSlots := hpos q hq
      have hi1 := hocc q hq (max q.2 s) (le_max_left _ _) (by omega)
      have hi2 := hfreecur2 (max q.2 s) (le_max_right _ _) (by omega)
      rw [hi1] at hi2
      cases hi2
    constructor
    · refine ⟨?_, ?_, ?_, ?_, ?_⟩
      · simp only [List.pairwise_append, List.pairwise_cons, List.Pairwise.nil]
        exact ⟨hpw, by simp, by simpa using hdisj⟩
      · intro p hp
        simp only [List.mem_append, List.mem_singleton] at hp
        rcases hp with hp | hp
        · exact hpos p hp
        · subst hp
          exact hdur
      · intro p hp i h1 h2
        simp only [List.mem_append, List.mem_singleton] at hp
        rcases hp with hp | hp
        · have h3 := hocc p hp i h1 h2
          show (if s ≤ i ∧ i < s + info.durationSlots then true else st.occ i) = true
          split
          · rfl
          · exact h3
        · subst hp
          exact if_pos (⟨h1, h2⟩ : s ≤ i ∧ i < s + info.durationSlots)
      · intro i hi
        show (if s ≤ i ∧ i < s + info.durationSlots then true else st.occ i) = true
        split
        · rfl
        · exact hext i hi
      · intro p hp i h1 h2
        simp only [List.mem_append, List.mem_singleton] at hp
        rcases hp with hp | hp
        · exact hfree0 p hp i h1 h2
        · subst hp
          have h3 := hfreecur2 i h1 h2
          by_contra hc
          have hc2 : occ0 i = true := by
            cases hocc0 : occ0 i
            · exact absurd hocc0 hc
            · rfl
          rw [hext i hc2] at h3
          cases h3
    · intro p hp
      simp only [List.mem_append, List.mem_singleton] at hp
      rcases hp with hp | hp
      · exact Or.inl hp
      · subst hp
        exact Or.inr ⟨rfl, hnewok⟩

theorem constructSchedule_inv (horizon : Int) (occ0 : Int → Bool)
    (infos : List SegmentInfo) (hdur : ∀ info ∈ infos, 0 < info.durationSlots) :
    consInv occ0 (constructSchedule horizon occ0 infos) ∧
      ∀ p ∈ (constructSchedule horizon occ0 infos).assignments,
        p.1 ∈ infos ∧ consAsgnOk horizon p := by
  unfold constructSchedule
  suffices H : ∀ st : ConsState, consInv occ0 st →
      consInv occ0 (infos.foldl (constructStep horizon) st) ∧
        ∀ p ∈ (infos.foldl (constructStep horizon) st).assignments,
          p ∈ st.assignments ∨ (p.1 ∈ infos ∧ consAsgnOk horizon p) by
    have h0 : consInv occ0 (⟨occ0, [], []⟩ : ConsState) := by
      refine ⟨List.Pairwise.nil, ?_, ?_, ?_, ?_⟩ <;> simp
    obtain ⟨h1, h2⟩ := H ⟨occ0, [], []⟩ h0
    refine ⟨h1, ?_⟩
    intro p hp
    rcases h2 p hp with hp2 | hp2
    · simp at hp2
    · exact hp2
  induction infos with
  | nil =>
    intro st hst
    exact ⟨hst, fun p hp => Or.inl hp⟩
  | cons info rest ih =>
    intro st hst
    simp only [List.foldl_cons]
    have hd : 0 < info.durationSlots := hdur info (by simp)
    obtain ⟨hinv2, hmem2⟩ := @constructStep_inv horizon occ0 st info hd hst
    have hdur2 : ∀ i ∈ rest, 0 < i.durationSlots := fun i hi => hdur i (by simp [hi])
    obtain ⟨hinv3, hmem3⟩ := ih hdur2 (constructStep horizon st info) hinv2
    refine ⟨hinv3, ?_⟩
    intro p hp
    rcases hmem3 p hp with hp2 | hp2
    · rcases hmem2 p hp2 with hp3 | hp3
      · exact Or.inl hp3
      · exact Or.inr ⟨by simp [hp3.1], hp3.2⟩
    · exact Or.inr ⟨by simp [hp2.1], hp2.2⟩

/-- The constraints, read back as propositions, of one task of a feasible
valuation. -/
theorem cpTaskOk_spec {g base horizon : Int} {previous : List (String × Int × Int)}
    {window : Option (Int × Int)} {sol : CPSol} {t : ScheduleTask}
    (h : cpTaskOkB g base horizon previous window sol t = true) :
    cpEarliest base g t ≤ sol.startv t.taskId ∧
      sol.startv t.taskId ≤ cpLatest base g horizon t ∧
      cpEarliest base g t + cpDur g t ≤ sol.stopv t.taskId ∧
      sol.stopv t.taskId ≤ horizon ∧
      (sol.presence t.taskId = 0 ∨ sol.presence t.taskId = 1) ∧
      (sol.presence t.taskId = 1 →
        sol.stopv t.taskId = sol.startv t.taskId + cpDur g t) ∧
      (sol.presence t.taskId = 1 → sol.stopv t.taskId ≤ cpDueCeil base g t) ∧
      (∀ f, t.fixedStart = some f →
        sol.startv t.taskId = toSlot base g f ∧ sol.presence t.taskId = 1) ∧
      (∀ w ps, t.fixedStart = none → window = some w →
        (lookupPrev previous t.taskId).map (fun q => toSlot base g q.1) = some ps →
        ¬(toSlot base g w.1 ≤ ps ∧ ps ≤ toSlotCeil base g w.2) →
        sol.startv t.taskId = ps ∧ sol.presence t.taskId = 1) ∧
      (lookupPrev previous t.taskId = none → t.fixedStart = none →
        sol.presence t.taskId = 1) ∧
      0 ≤ sol.tard t.taskId ∧ sol.tard t.taskId ≤ horizon ∧
      (sol.presence t.taskId = 1 →
        sol.stopv t.taskId - cpDueCeil base g t ≤ sol.tard t.taskId) ∧
      (sol.presence t.taskId = 0 → sol.tard t.taskId = 0) ∧
      0 ≤ sol.dev t.taskId ∧ sol.dev t.taskId ≤ horizon ∧
      (∀ ps, cpPrevSlot base g previous t = some ps →
        sol.startv t.taskId - ps ≤ sol.dev t.taskId ∧
          ps - sol.startv t.taskId ≤ sol.dev t.taskId) ∧
      (cpPrevSlot base g previous t = none → sol.dev t.taskId = 0) := by
  unfold cpTaskOkB at h
  simp only [Bool.and_eq_true, decide_eq_true_eq] at h
  obtain ⟨⟨⟨⟨⟨⟨⟨⟨⟨⟨⟨⟨⟨⟨⟨⟨h1, h2⟩, h3⟩, h4⟩, h5⟩, h6⟩, h7⟩, h8⟩, hfix⟩, hnew⟩, h9⟩,
    h10⟩, h11⟩, h12⟩, h13⟩, h14⟩, hdev⟩ := h
  refine ⟨h1, h2, h3, h4, h5, h6, h8, ?_, ?_, ?_, h9, h10, h11, h12, h13, h14, ?_, ?_⟩
  · intro f hf
    rw [hf] at hfix
    simpa using hfix
  · intro w ps hf hw hps hout
    rw [hf, hw, hps] at hfix
    simp only [if_neg hout, decide_eq_true_eq] at hfix
    exact hfix
  · intro hprev hf
    rw [hprev, hf] at hnew
    simpa using hnew
  · intro ps hps
    rw [hps] at hdev
    simpa using hdev
  · intro hps
    rw [hps] at hdev
    simpa using hdev

/-! ## Support lemmas for the scheduler-level claims -/
theorem toSlotCeil_mono {base g t u : Int} (hg : 0 < g) (h : t ≤ u) :
    toSlotCeil base g t ≤ toSlotCeil base g u := by
  unfold toSlotCeil
  have := Int.ediv_le_ediv hg (show base - u ≤ base - t by omega)
  omega

theorem toSlotCeil_nonneg {base g t : Int} (hg : 0 < g) (h : base ≤ t) :
    0 ≤ toSlotCeil base g t := by
  by_contra hc
  have h2 : toSlotCeil base g t ≤ -1 := by omega
  have h3 := (@toSlotCeil_le_iff base g t (-1) hg).mp h2
  unfold toDatetime at h3
  nlinarith

theorem toDatetime_mono {base g s u : Int} (hg : 0 < g) (h : s ≤ u) :
    toDatetime base g s ≤ toDatetime base g u := by
  unfold toDatetime
  nlinarith

theorem foldl_min_le (l : List Int) (a : Int) :
    l.foldl min a ≤ a ∧ ∀ x ∈ l, l.foldl min a ≤ x := by
  induction l generalizing a with
  | nil => simp
  | cons y ys ih =>
    simp only [List.foldl_cons]
    obtain ⟨h1, h2⟩ := ih (min a y)
    refine ⟨le_trans h1 (min_le_left a y), ?_⟩
    intro x hx
    rcases List.mem_cons.mp hx with hx | hx
    · rw [hx]
      exact le_trans h1 (min_le_right a y)
    · exact h2 x hx

theorem le_foldl_max (l : List Int) (a : Int) :
    a ≤ l.foldl max a ∧ ∀ x ∈ l, x ≤ l.foldl max a := by
  induction l generalizing a with
  | nil => simp
  | cons y ys ih =>
    simp only [List.foldl_cons]
    obtain ⟨h1, h2⟩ := ih (max a y)
    refine ⟨le_trans (le_max_left a y) h1, ?_⟩
    intro x hx
    rcases List.mem_cons.mp hx with hx | hx
    · rw [hx]
      exact le_trans (le_max_right a y) h1
    · exact h2 x hx

theorem listMin_le {l : List Int} {x : Int} (hx : x ∈ l) : listMin l ≤ x := by
  cases l with
  | nil => cases hx
  | cons y ys =>
    unfold listMin
    rcases List.mem_cons.mp hx with hx | hx
    · rw [hx]
      exact (foldl_min_le ys y).1
    · exact (foldl_min_le ys y).2 x hx

/-- The aligned base does not exceed the raw base. -/
theorem reqBase_le_rawBase {g : Int} (hg : 0 < g) (req : ScheduleRequest) :
    reqBase g req ≤ rawBase req := by
  unfold reqBase
  have := Int.emod_nonneg (rawBase req % 60) (show g ≠ 0 by omega)
  omega

/-- The base is at or before every task earliest start. -/
theorem reqBase_le_earliest {g : Int} (hg : 0 < g) {req : ScheduleRequest}
    {t : ScheduleTask} (ht : t ∈ req.tasks) : reqBase g req ≤ t.earliestStart := by
  refine le_trans (reqBase_le_rawBase hg req) (listMin_le ?_)
  simp only [List.mem_append, List.mem_map]
  exact Or.inl ⟨t, ht, rfl⟩

/-- The base is at or before every meeting start. -/
theorem reqBase_le_meeting {g : Int} (hg : 0 < g) {req : ScheduleRequest}
    {m : ScheduleMeeting} (hm : m ∈ req.meetings) : reqBase g req ≤ m.start := by
  refine le_trans (reqBase_le_rawBase hg req) (listMin_le ?_)
  simp only [List.mem_append, List.mem_map]
  exact Or.inr ⟨m, hm, rfl⟩

/-- When the granularity divides one hour, the aligned base sits on the
granularity grid in absolute minutes. -/
theorem reqBase_emod {g : Int} (hg : 0 < g) (hg60 : g ∣ 60) (req : ScheduleRequest) :
    reqBase g req % g = 0 := by
  unfold reqBase
  have h1 : rawBase req % 60 % g = rawBase req % g :=
    Int.emod_emod_of_dvd (rawBase req) hg60
  rw [h1]
  have h2 := Int.ediv_add_emod (rawBase req) g
  have h3 : rawBase req - rawBase req % g = g * (rawBase req / g) := by omega
  rw [h3]
  exact Int.mul_emod_right g _

/-- Task dues are at or before the horizon end instant. -/
theorem due_le_horizonEnd {g : Int} {req : ScheduleRequest} {t : ScheduleTask}
    (ht : t ∈ req.tasks) : t.due ≤ horizonEndInstant g req := by
  unfold horizonEndInstant
  have h := (le_foldl_max (req.tasks.map (fun t => t.due)) (reqBase g req)).2 t.due
    (List.mem_map.mpr ⟨t, ht, rfl⟩)
  have h2 : req.tasks.foldl (fun acc t => max acc t.due) (reqBase g req) =
      (req.tasks.map (fun t => t.due)).foldl max (reqBase g req) := by
    rw [List.foldl_map]
  omega

/-- Meeting ends are at or before the horizon end instant. -/
theorem meetingStop_le_horizonEnd {g : Int} {req : ScheduleRequest} {m : ScheduleMeeting}
    (hm : m ∈ req.meetings) : m.stop ≤ horizonEndInstant g req := by
  unfold horizonEndInstant
  have h := (le_foldl_max (req.meetings.map (fun m => m.stop)) (reqBase g req)).2 m.stop
    (List.mem_map.mpr ⟨m, hm, rfl⟩)
  have h2 : req.meetings.foldl (fun acc m => max acc m.stop) (reqBase g req) =
      (req.meetings.map (fun m => m.stop)).foldl max (reqBase g req) := by
    rw [List.foldl_map]
  omega

/-- The due slot ceiling of every task clears the horizon slot count by the
ten-slot slack. -/
theorem dueCeil_le_horizon {g : Int} (hg : 0 < g) {req : ScheduleRequest}
    {t : ScheduleTask} (ht : t ∈ req.tasks) :
    toSlotCeil (reqBase g req) g t.due + 10 ≤ horizonSlots g req := by
  unfold horizonSlots
  have h1 := due_le_horizonEnd (g := g) ht
  have h2 := @toSlotCeil_mono (reqBase g req) g _ _ hg h1
  omega

/-- Same bound for meeting end slots. -/
theorem meetingCeil_le_horizon {g : Int} (hg : 0 < g) {req : ScheduleRequest}
    {m : ScheduleMeeting} (hm : m ∈ req.meetings) :
    toSlotCeil (reqBase g req) g m.stop + 10 ≤ horizonSlots g req := by
  unfold horizonSlots
  have h1 := meetingStop_le_horizonEnd (g := g) hm
  have h2 := @toSlotCeil_mono (reqBase g req) g _ _ hg h1
  omega

/-- Any minute of a slot whose start instant passes the working-hours test
lies inside the working window, provided the granularity divides one hour and
the base is grid-aligned. -/
theorem minute_in_slot_working {g base ws we slot u : Int} (hg : 0 < g) (hg60 : g ∣ 60)
    (hbase : base % g = 0) (hws : 0 ≤ ws) (hwe : we ≤ 24)
    (hfree : outsideWorkB ws we (toDatetime base g slot) = false)
    (h1 : toDatetime base g slot ≤ u) (h2 : u < toDatetime base g (slot + 1)) :
    ws * 60 ≤ minuteOfDay u ∧ minuteOfDay u < we * 60 := by
  have hg1440 : g ∣ 1440 := by
    have := hg60.mul_right 24
    simpa using this
  have hg60le : g ≤ 60 := Int.le_of_dvd (by norm_num) hg60
  have hssmod : toDatetime base g slot % g = 0 := by
    unfold toDatetime
    rw [Int.add_mul_emod_self]
    exact hbase
  have hmdnn : 0 ≤ toDatetime base g slot % 1440 := Int.emod_nonneg _ (by norm_num)
  have hmdlt : toDatetime base g slot % 1440 < 1440 := Int.emod_lt_of_pos _ (by norm_num)
  have hmdmod : toDatetime base g slot % 1440 % g = 0 := by
    rw [Int.emod_emod_of_dvd _ hg1440]
    exact hssmod
  unfold outsideWorkB minuteOfDay at hfree
  simp only [Bool.or_eq_false_iff, decide_eq_false_iff_not, not_lt, not_le] at hfree
  obtain ⟨hfree1, hfree2⟩ := hfree
  have hdelta1 : 0 ≤ u - toDatetime base g slot := by omega
  have hdelta2 : u - toDatetime base g slot < g := by
    have hexp : toDatetime base g (slot + 1) = toDatetime base g slot + g := by
      unfold toDatetime
      ring
    omega
  have hwe1440 : we * 60 ≤ 1440 := by nlinarith
  have hwe60 : g ∣ we * 60 := hg60.mul_left we
  have hgap : toDatetime base g slot % 1440 + g ≤ we * 60 := by
    have hd : g ∣ we * 60 - toDatetime base g slot % 1440 :=
      Int.dvd_sub hwe60 (Int.dvd_of_emod_eq_zero hmdmod)
    have hpos : 0 < we * 60 - toDatetime base g slot % 1440 := by omega
    have := Int.le_of_dvd hpos hd
    omega
  have hu : u % 1440 = toDatetime base g slot % 1440 + (u - toDatetime base g slot) := by
    have h3 : u = toDatetime base g slot + (u - toDatetime base g slot) := by omega
    conv_lhs => rw [h3]
    rw [Int.add_emod]
    rw [Int.emod_eq_of_lt hdelta1 (by omega)]
    exact Int.emod_eq_of_lt (by omega) (by omega)
  unfold minuteOfDay
  rw [hu]
  omega

/-- Positivity of slot durations. -/
theorem durationToSlots_pos (g m : Int) : 1 ≤ durationToSlots g m := le_max_left 1 _

/-- Master lemma about one SWO construction pass: the decoded assignments are
pairwise non-overlapping in time, and each assignment of a task drawn from
the request respects the earliest start, ends by the slot-rounded deadline,
has the slot-rounded duration, carries the exact tardiness of its end against
the due instant (which is less than one granule), and intersects no meeting
and no non-working minute. -/
theorem swoIteration_spec (cfg : SWOConfig) (req : ScheduleRequest) (order : List ScheduleTask)
    (hg : 0 < cfg.granularity) (hg60 : cfg.granularity ∣ 60)
    (hws : 0 ≤ cfg.workStart) (hwe : cfg.workStop ≤ 24)
    (hmeet : ∀ m ∈ req.meetings, m.start < m.stop)
    (horder : ∀ t ∈ order, t ∈ req.tasks) :
    (swoIteration cfg req order).assignments.Pairwise
        (fun a b => a.stop ≤ b.start ∨ b.stop ≤ a.start) ∧
      ∀ a ∈ (swoIteration cfg req order).assignments, ∃ t, t ∈ req.tasks ∧
        a.taskId = t.taskId ∧
        a.stop - a.start = durationToSlots cfg.granularity t.durationMinutes * cfg.granularity ∧
        t.earliestStart ≤ a.start ∧
        a.tardinessMinutes = max 0 (a.stop - t.due) ∧
        a.stop ≤ toDatetime (reqBase cfg.granularity req) cfg.granularity
          (toSlotCeil (reqBase cfg.granularity req) cfg.granularity t.due) ∧
        a.tardinessMinutes < cfg.granularity ∧
        (∀ m ∈ req.meetings, a.stop ≤ m.start ∨ m.stop ≤ a.start) ∧
        (∀ u, a.start ≤ u → u < a.stop →
          cfg.workStart * 60 ≤ minuteOfDay u ∧ minuteOfDay u < cfg.workStop * 60) := by
  have hg0 : cfg.granularity ≠ 0 := by omega
  have hbase := reqBase_emod hg hg60 req
  have hres : swoIteration cfg req order =
      buildResult cfg.granularity (reqBase cfg.granularity req)
        (constructSchedule (horizonSlots cfg.granularity req)
          (baseOccupancy cfg req (reqBase cfg.granularity req) (horizonSlots cfg.granularity req))
          (order.map (buildSegmentInfo cfg.granularity (reqBase cfg.granularity req)
            (horizonSlots cfg.granularity req) req.previousAssignments))) := rfl
  have hdurpos : ∀ info ∈ order.map (buildSegmentInfo cfg.granularity
      (reqBase cfg.granularity req) (horizonSlots cfg.granularity req)
      req.previousAssignments), 0 < info.durationSlots := by
    intro info hinfo
    obtain ⟨t, _, hteq⟩ := List.mem_map.mp hinfo
    rw [← hteq]
    have := durationToSlots_pos cfg.granularity t.durationMinutes
    simp only [buildSegmentInfo]
    omega
  obtain ⟨⟨hpw, hpos, hocccur, hext, hfree0⟩, hall⟩ :=
    constructSchedule_inv (horizonSlots cfg.granularity req)
      (baseOccupancy cfg req (reqBase cfg.granularity req) (horizonSlots cfg.granularity req))
      (order.map (buildSegmentInfo cfg.granularity (reqBase cfg.granularity req)
        (horizonSlots cfg.granularity req) req.previousAssignments)) hdurpos
  have hperm := List.perm_insertionSort (fun a b : AssignedTask => a.start ≤ b.start)
    (((constructSchedule (horizonSlots cfg.granularity req)
        (baseOccupancy cfg req (reqBase cfg.granularity req) (horizonSlots cfg.granularity req))
        (order.map (buildSegmentInfo cfg.granularity (reqBase cfg.granularity req)
          (horizonSlots cfg.granularity req) req.previousAssignments))).assignments).map
      (buildAssigned cfg.granularity (reqBase cfg.granularity req)))
  constructor
  · -- pairwise non-overlap, transported from the slot level
    rw [hres]
    unfold buildResult
    refine (hperm.pairwise_iff ?_).mpr ?_
    · intro a b hab
      rcases hab with h | h
      · exact Or.inr h
      · exact Or.inl h
    · refine List.Pairwise.map _ ?_ hpw
      intro p q hpq
      have hdq : (0 : Int) < q.1.durationSlots ∨ True := Or.inr trivial
      rcases hpq with h | h
      · left
        show toDatetime (reqBase cfg.granularity req) cfg.granularity (p.2 + p.1.durationSlots) ≤
          toDatetime (reqBase cfg.granularity req) cfg.granularity q.2
        exact toDatetime_mono hg h
      · right
        show toDatetime (reqBase cfg.granularity req) cfg.granularity (q.2 + q.1.durationSlots) ≤
          toDatetime (reqBase cfg.granularity req) cfg.granularity p.2
        exact toDatetime_mono hg h
  · intro a ha
    rw [hres] at ha
    unfold buildResult at ha
    have hmem : a ∈ ((constructSchedule (horizonSlots cfg.granularity req)
        (baseOccupancy cfg req (reqBase cfg.granularity req) (horizonSlots cfg.granularity req))
        (order.map (buildSegmentInfo cfg.granularity (reqBase cfg.granularity req)
          (horizonSlots cfg.granularity req) req.previousAssignments))).assignments).map
        (buildAssigned cfg.granularity (reqBase cfg.granularity req)) :=
      hperm.mem_iff.mp ha
    obtain ⟨p, hp, haeq⟩ := List.mem_map.mp hmem
    obtain ⟨hpinfos, hok1, hok2, hok3⟩ := hall p hp
    obtain ⟨t, htorder, hteq⟩ := List.mem_map.mp hpinfos
    have htreq : t ∈ req.tasks := horder t htorder
    -- unpack the segment info fields
    have hfields : p.1.task = t ∧
        p.1.durationSlots = durationToSlots cfg.granularity t.durationMinutes ∧
        p.1.earliestSlot = toSlotCeil (reqBase cfg.granularity req) cfg.granularity
          t.earliestStart ∧
        p.1.dueSlot = toSlotCeil (reqBase cfg.granularity req) cfg.granularity t.due := by
      rw [← hteq]
      simp [buildSegmentInfo]
    obtain ⟨hf1, hf2, hf3, hf4⟩ := hfields
    have hfree := hfree0 p hp
    have hstart : a.start = toDatetime (reqBase cfg.granularity req) cfg.granularity p.2 := by
      rw [← haeq]
      rfl
    have hstop : a.stop = toDatetime (reqBase cfg.granularity req) cfg.granularity
        (p.2 + p.1.durationSlots) := by
      rw [← haeq]
      rfl
    have htid : a.taskId = t.taskId := by
      rw [← haeq, ← hf1]
      rfl
    have htard : a.tardinessMinutes = swoTardiness t.due a.stop := by
      rw [← haeq, ← hf1]
      rfl
    have hdurp : 0 < p.1.durationSlots := by
      rw [hf2]
      have := durationToSlots_pos cfg.granularity t.durationMinutes
      omega
    have hstartlt : a.start < a.stop := by
      rw [hstart, hstop]
      unfold toDatetime
      nlinarith
    have hesnn : 0 ≤ p.1.earliestSlot := by
      rw [hf3]
      exact toSlotCeil_nonneg hg (reqBase_le_earliest hg htreq)
    have hdueh := dueCeil_le_horizon hg htreq
    have hslotnn : 0 ≤ p.2 := le_trans hesnn hok1
    have hstoph : p.2 + p.1.durationSlots ≤ horizonSlots cfg.granularity req := by
      have := hok3
      rw [hf4] at this
      omega
    refine ⟨t, htreq, htid, ?_, ?_, ?_, ?_, ?_, ?_, ?_⟩
    · rw [hstart, hstop, ← hf2]
      unfold toDatetime
      ring
    · rw [hstart]
      calc t.earliestStart ≤ toDatetime (reqBase cfg.granularity req) cfg.granularity
            (toSlotCeil (reqBase cfg.granularity req) cfg.granularity t.earliestStart) :=
            le_toDatetime_toSlotCeil hg
        _ ≤ toDatetime (reqBase cfg.granularity req) cfg.granularity p.2 := by
            apply toDatetime_mono hg
            rw [← hf3]
            exact hok1
    · rw [htard]
      unfold swoTardiness
      split <;> omega
    · rw [hstop]
      apply toDatetime_mono hg
      rw [← hf4]
      exact hok3
    · have hlt := @toDatetime_toSlotCeil_lt (reqBase cfg.granularity req)
        cfg.granularity t.due hg
      have hle : a.stop ≤ toDatetime (reqBase cfg.granularity req) cfg.granularity
          (toSlotCeil (reqBase cfg.granularity req) cfg.granularity t.due) := by
        rw [hstop]
        apply toDatetime_mono hg
        rw [← hf4]
        exact hok3
      rw [htard]
      unfold swoTardiness
      split <;> omega
    · -- no meeting overlap
      intro m hm
      by_contra hc
      push_neg at hc
      obtain ⟨hc1, hc2⟩ := hc
      have hms := hmeet m hm
      set u := max a.start m.start with hu
      have hu1 : a.start ≤ u := le_max_left _ _
      have hu2 : m.start ≤ u := le_max_right _ _
      have hu3 : u < a.stop := by
        rcases max_cases a.start m.start with ⟨h, _⟩ | ⟨h, _⟩ <;> omega
      have hu4 : u < m.stop := by
        rcases max_cases a.start m.start with ⟨h, _⟩ | ⟨h, _⟩ <;> omega
      have hk1 : p.2 ≤ toSlot (reqBase cfg.granularity req) cfg.granularity u := by
        apply (le_toSlot_iff hg).mpr
        rw [← hstart]
        exact hu1
      have hk2 : toSlot (reqBase cfg.granularity req) cfg.granularity u <
          p.2 + p.1.durationSlots := by
        apply (toSlot_lt_iff hg).mpr
        rw [← hstop]
        exact hu3
      obtain ⟨hk3, hk4⟩ := @slot_mem_of_mem (reqBase cfg.granularity req)
        cfg.granularity _ _ _ hg hu2 hu4
      have hmh := meetingCeil_le_horizon hg hm
      have hocck : baseOccupancy cfg req (reqBase cfg.granularity req)
          (horizonSlots cfg.granularity req)
          (toSlot (reqBase cfg.granularity req) cfg.granularity u) = true := by
        unfold baseOccupancy
        have hany : req.meetings.any (fun m2 =>
            decide (max 0 (toSlot (reqBase cfg.granularity req) cfg.granularity m2.start) ≤
              toSlot (reqBase cfg.granularity req) cfg.granularity u) &&
              decide (toSlot (reqBase cfg.granularity req) cfg.granularity u <
                min (horizonSlots cfg.granularity req)
                  (toSlotCeil (reqBase cfg.granularity req) cfg.granularity m2.stop))) = true := by
          apply List.any_eq_true.mpr
          refine ⟨m, hm, ?_⟩
          simp only [Bool.and_eq_true, decide_eq_true_eq]
          omega
        rw [hany]
        simp
      have := hfree (toSlot (reqBase cfg.granularity req) cfg.granularity u) hk1 hk2
      rw [hocck] at this
      cases this
    · -- inside working hours
      intro u hu1 hu2
      have hk1 : p.2 ≤ toSlot (reqBase cfg.granularity req) cfg.granularity u := by
        apply (le_toSlot_iff hg).mpr
        rw [← hstart]
        exact hu1
      have hk2 : toSlot (reqBase cfg.granularity req) cfg.granularity u <
          p.2 + p.1.durationSlots := by
        apply (toSlot_lt_iff hg).mpr
        rw [← hstop]
        exact hu2
      have hfreek := hfree (toSlot (reqBase cfg.granularity req) cfg.granularity u) hk1 hk2
      unfold baseOccupancy at hfreek
      simp only [Bool.or_eq_false_iff, Bool.and_eq_false_iff] at hfreek
      obtain ⟨hwork, _⟩ := hfreek
      by_cases hactive : 0 < cfg.workStart ∨ cfg.workStop < 24
      · rcases hwork with ⟨hw1, hw2⟩ | hwork
        · simp only [decide_eq_false_iff_not] at hw1 hw2
          rcases hactive with h | h
          · exact absurd h hw1
          · exact absurd h hw2
        · refine minute_in_slot_working hg hg60 hbase hws hwe hwork ?_ ?_
          · exact toDatetime_toSlot_le hg
          · apply (toSlot_lt_iff hg).mp
            omega
      · push_neg at hactive
        obtain ⟨ha1, ha2⟩ := hactive
        have hnn : 0 ≤ minuteOfDay u := Int.emod_nonneg u (by norm_num)
        have hlt1440 : minuteOfDay u < 1440 := Int.emod_lt_of_pos u (by norm_num)
        constructor
        · nlinarith
        · nlinarith

/-- The assignments returned by swoSchedule come from one construction pass,
unless they are empty (empty request, or the degenerate zero-iteration
fallback). -/
theorem swoSchedule_cases (cfg : SWOConfig) (req : ScheduleRequest)
    (orders : List (List ScheduleTask)) :
    (swoSchedule cfg req orders).assignments = [] ∨
      ∃ order ∈ orders,
        (swoSchedule cfg req orders).assignments = (swoIteration cfg req order).assignments := by
  unfold swoSchedule
  by_cases hemp : req.tasks.isEmpty
  · rw [if_pos hemp]
    exact Or.inl rfl
  · rw [if_neg hemp]
    cases hpick : swoBestPick (orders.map (swoIteration cfg req)) with
    | none => exact Or.inl rfl
    | some r =>
      obtain ⟨order, horder, hreq⟩ := List.mem_map.mp (swoBestPick_mem hpick)
      right
      exact ⟨order, horder, by rw [hreq]⟩

/-- Decoded CP assignments are exactly the present tasks. -/
theorem cpDecode_assignment_mem {cfg : CPConfig} {req : ScheduleRequest} {sol : CPSol}
    {a : AssignedTask} (ha : a ∈ (cpDecode cfg req sol).assignments) :
    ∃ t ∈ req.tasks, ¬ sol.presence t.taskId = 0 ∧
      a = { taskId := t.taskId
            start := toDatetime (reqBase cfg.granularity req) cfg.granularity
              (sol.startv t.taskId)
            stop := toDatetime (reqBase cfg.granularity req) cfg.granularity
              (sol.stopv t.taskId)
            deviationMinutes := sol.dev t.taskId * cfg.granularity
            tardinessMinutes := sol.tard t.taskId * cfg.granularity } := by
  unfold cpDecode at ha
  simp only at ha
  have hperm := List.perm_insertionSort (fun a b : AssignedTask => a.start ≤ b.start)
    (req.tasks.filterMap (fun t =>
      if sol.presence t.taskId = 0 then none
      else
        some
          { taskId := t.taskId
            start := toDatetime (reqBase cfg.granularity req) cfg.granularity
              (sol.startv t.taskId)
            stop := toDatetime (reqBase cfg.granularity req) cfg.granularity
              (sol.stopv t.taskId)
            deviationMinutes := sol.dev t.taskId * cfg.granularity
            tardinessMinutes := sol.tard t.taskId * cfg.granularity }))
  have hmem := hperm.mem_iff.mp ha
  obtain ⟨t, ht, hteq⟩ := List.mem_filterMap.mp hmem
  by_cases hp : sol.presence t.taskId = 0
  · rw [if_pos hp] at hteq
    cases hteq
  · rw [if_neg hp] at hteq
    refine ⟨t, ht, hp, ?_⟩
    cases hteq
    rfl

/-- The feasibility predicate gives the per-task constraint block of every
task of the request. -/
theorem cpFeasible_taskOk {cfg : CPConfig} {req : ScheduleRequest} {sol : CPSol}
    (h : cpFeasible cfg req sol) {t : ScheduleTask} (ht : t ∈ req.tasks) :
    cpTaskOkB cfg.granularity (reqBase cfg.granularity req) (horizonSlots cfg.granularity req)
      req.previousAssignments req.neighborhoodWindow sol t = true :=
  List.all_eq_true.mp h.1 t ht

/-- Present tasks contribute their interval to the NoOverlap list. -/
theorem cpInterval_mem_of_present {cfg : CPConfig} {req : ScheduleRequest} {sol : CPSol}
    {t : ScheduleTask} (ht : t ∈ req.tasks) (hp : sol.presence t.taskId = 1) :
    (sol.startv t.taskId, sol.startv t.taskId + cpDur cfg.granularity t) ∈
      cpIntervals cfg req sol := by
  unfold cpIntervals
  simp only [List.mem_append]
  left
  left
  apply List.mem_filterMap.mpr
  exact ⟨t, ht, by rw [if_pos hp]⟩

/-- Meetings contribute their fixed interval to the NoOverlap list. -/
theorem cpInterval_mem_of_meeting {cfg : CPConfig} {req : ScheduleRequest} {sol : CPSol}
    {m : ScheduleMeeting} (hm : m ∈ req.meetings) :
    cpMeetingInterval (reqBase cfg.granularity req) cfg.granularity m ∈
      cpIntervals cfg req sol := by
  unfold cpIntervals
  simp only [List.mem_append]
  left
  right
  exact List.mem_map.mpr ⟨m, hm, rfl⟩

/-- Emitted blocks are in the NoOverlap list. -/
theorem cpInterval_mem_of_block {cfg : CPConfig} {req : ScheduleRequest} {sol : CPSol}
    {b : Int × Int}
    (hb : b ∈ cpBlocks cfg.granularity cfg.workStart cfg.workStop
      (reqBase cfg.granularity req) (horizonSlots cfg.granularity req)) :
    b ∈ cpIntervals cfg req sol := by
  unfold cpIntervals
  simp only [List.mem_append]
  exact Or.inr hb

/-- Any two distinct members of the NoOverlap list are slot-disjoint; for two
occurrences that may refer to the same list entry, disjointness follows from
the Pairwise property whenever they sit at different positions; this wrapper
derives disjointness from membership of both plus the fact that the entries
differ. -/
theorem pairwise_disjoint_of_mem {l : List (Int × Int)} (hpw : l.Pairwise slotDisjoint)
    {p q : Int × Int} (hp : p ∈ l) (hq : q ∈ l) (hne : p ≠ q) : slotDisjoint p q := by
  induction l with
  | nil => cases hp
  | cons x xs ih =>
    rcases List.pairwise_cons.mp hpw with ⟨hx, hxs⟩
    rcases List.mem_cons.mp hp with hp1 | hp1
    · rcases List.mem_cons.mp hq with hq1 | hq1
      · exact absurd (hp1.trans hq1.symm) hne
      · rw [hp1]
        exact hx q hq1
    · rcases List.mem_cons.mp hq with hq1 | hq1
      · rw [hq1]
        rcases hx p hp1 with h | h
        · exact Or.inr h
        · exact Or.inl h
      · exact ih hxs hp1 hq1

theorem horizonSlots_ge_ten (g : Int) (req : ScheduleRequest) :
    10 ≤ horizonSlots g req := le_max_right _ _

/-- On grid-aligned instants the floor slot conversion is exact. -/
theorem toDatetime_toSlot_eq {base g t : Int} (hg : 0 < g) (halign : (t - base) % g = 0) :
    toDatetime base g (toSlot base g t) = t := by
  unfold toDatetime toSlot
  have h := Int.ediv_add_emod (t - base) g
  have h2 : (t - base) / g * g = g * ((t - base) / g) := by ring
  omega

/-- On grid-aligned instants the ceiling slot conversion is exact. -/
theorem toDatetime_toSlotCeil_eq {base g t : Int} (hg : 0 < g) (halign : (t - base) % g = 0) :
    toDatetime base g (toSlotCeil base g t) = t := by
  have h1 := @le_toDatetime_toSlotCeil base g t hg
  have h2 := @toDatetime_toSlotCeil_lt base g t hg
  have h3 : toDatetime base g (toSlotCeil base g t) % g = base % g := by
    unfold toDatetime
    rw [Int.add_mul_emod_self]
  have h4 : (toDatetime base g (toSlotCeil base g t) - t) % g = 0 := by
    have h5 : toDatetime base g (toSlotCeil base g t) - t =
        (toDatetime base g (toSlotCeil base g t) - base) - (t - base) := by ring
    rw [h5, Int.sub_emod]
    have h6 : (toDatetime base g (toSlotCeil base g t) - base) % g = 0 := by
      unfold toDatetime
      have h7 : base + toSlotCeil base g t * g - base = toSlotCeil base g t * g := by ring
      rw [h7]
      exact Int.mul_emod_left _ _
    rw [h6, halign]
    simp
  have h8 : g ∣ toDatetime base g (toSlotCeil base g t) - t := Int.dvd_of_emod_eq_zero h4
  rcases eq_or_lt_of_le h1 with h9 | h9
  · omega
  · have := Int.le_of_dvd (by omega) h8
    omega

/-- Every calendar day between the loop start and the horizon end is visited
by the block emission loop. -/
theorem dayBlocks_sub_blocksFromAux {base g horizon ws we stopAt : Int} {d : Int}
    (fuel : Nat) (day1 : Int) (hfuel : (stopAt - day1).toNat < fuel) (h1 : day1 ≤ d)
    (h2 : d < stopAt) (h3 : (d - day1) % 1440 = 0) :
    ∀ b ∈ dayBlocks base g horizon ws we d,
      b ∈ blocksFromAux fuel base g horizon ws we stopAt day1 := by
  induction fuel generalizing day1 with
  | zero => omega
  | succ n ih =>
    intro b hb
    have hday1lt : day1 < stopAt := by omega
    rw [blocksFromAux, if_pos hday1lt]
    rcases eq_or_lt_of_le h1 with heq | hlt
    · rw [heq]
      exact List.mem_append.mpr (Or.inl hb)
    · have hdvd : (1440 : Int) ∣ d - day1 := Int.dvd_of_emod_eq_zero h3
      have hstep : day1 + 1440 ≤ d := by
        have := Int.le_of_dvd (by omega) hdvd
        omega
      refine List.mem_append.mpr (Or.inr ?_)
      have hmod2 : (d - (day1 + 1440)) % 1440 = 0 := by
        have h5 : d - (day1 + 1440) = (d - day1) - 1440 := by ring
        rw [h5, Int.sub_emod, h3]
        norm_num
      exact ih (day1 + 1440) (by omega) hstep hmod2 b hb

theorem dayBlocks_sub_blocksFrom {base g horizon ws we stopAt : Int} {d : Int}
    (day0 : Int) (h1 : day0 ≤ d) (h2 : d < stopAt) (h3 : (d - day0) % 1440 = 0) :
    ∀ b ∈ dayBlocks base g horizon ws we d, b ∈ blocksFrom base g horizon ws we stopAt day0 :=
  dayBlocks_sub_blocksFromAux ((stopAt - day0).toNat + 1) day0 (by omega) h1 h2 h3

/-- Every minute before the horizon whose minute-of-day falls outside the
working window is covered by an emitted non-working block. -/
theorem cpBlocks_cover {g ws we base horizon : Int} (hg : 0 < g)
    (hws : 0 ≤ ws) (hwe : we ≤ 24) {u : Int} (hu1 : base ≤ u)
    (hu2 : u < toDatetime base g horizon)
    (hout : minuteOfDay u < ws * 60 ∨ we * 60 ≤ minuteOfDay u) :
    ∃ b ∈ cpBlocks g ws we base horizon,
      b.1 ≤ toSlot base g u ∧ toSlot base g u < b.2 := by
  have hmdnn : 0 ≤ minuteOfDay u := Int.emod_nonneg u (by norm_num)
  have hmdlt : minuteOfDay u < 1440 := Int.emod_lt_of_pos u (by norm_num)
  have hactive : 0 < ws ∨ we < 24 := by
    by_contra hc
    push_neg at hc
    obtain ⟨h1, h2⟩ := hc
    rcases hout with h | h
    · nlinarith
    · nlinarith
  have hslotnn : 0 ≤ toSlot base g u := by
    have := (@le_toSlot_iff base g u 0 hg).mpr
    apply this
    unfold toDatetime
    omega
  have hslotlt : toSlot base g u < horizon :=
    (toSlot_lt_iff hg).mpr hu2
  -- the day containing u is enumerated
  set d := u - minuteOfDay u with hd
  have hdmod : (d - (base - minuteOfDay base)) % 1440 = 0 := by
    have h1 : d - (base - minuteOfDay base) = 1440 * (u / 1440) - 1440 * (base / 1440) := by
      unfold minuteOfDay at hd ⊢
      have h2 := Int.ediv_add_emod u 1440
      have h3 := Int.ediv_add_emod base 1440
      omega
    rw [h1]
    have h4 : 1440 * (u / 1440) - 1440 * (base / 1440) = 1440 * (u / 1440 - base / 1440) := by
      ring
    rw [h4]
    exact Int.mul_emod_right _ _
  have hbasemdnn : 0 ≤ minuteOfDay base := Int.emod_nonneg base (by norm_num)
  have hbasemdlt : minuteOfDay base < 1440 := Int.emod_lt_of_pos base (by norm_num)
  have hday0led : base - minuteOfDay base ≤ d := by
    have hdvd : (1440 : Int) ∣ d - (base - minuteOfDay base) := Int.dvd_of_emod_eq_zero hdmod
    by_contra hc
    push_neg at hc
    have := Int.le_of_dvd (by omega) (hdvd.neg_right)
    omega
  have hdltstop : d < toDatetime base g horizon := by omega
  have hcov : ∀ bs be : Int, bs ≤ u → u < be →
      (max 0 (toSlot base g bs) ≤ toSlot base g u ∧
        toSlot base g u < min horizon (toSlotCeil base g be)) := by
    intro bs be hbs hbe
    obtain ⟨hc1, hc2⟩ := @slot_mem_of_mem base g _ _ _ hg hbs hbe
    exact ⟨by omega, by omega⟩
  rcases hout with hout | hout
  · -- u lies in the morning block [d, d + ws*60)
    have hm1 : d ≤ u := by omega
    have hm2 : u < d + ws * 60 := by omega
    obtain ⟨hc1, hc2⟩ := hcov d (d + ws * 60) hm1 hm2
    refine ⟨(max 0 (toSlot base g d), min horizon (toSlotCeil base g (d + ws * 60))), ?_, hc1, hc2⟩
    unfold cpBlocks
    rw [if_pos hactive]
    apply dayBlocks_sub_blocksFrom (base - minuteOfDay base) hday0led hdltstop hdmod
    unfold dayBlocks
    apply List.mem_append.mpr
    left
    unfold blockClamped
    rw [if_pos (by omega)]
    exact List.mem_singleton.mpr rfl
  · -- u lies in the evening block [d + we*60, d + 1440)
    have hm1 : d + we * 60 ≤ u := by omega
    have hm2 : u < d + 1440 := by omega
    obtain ⟨hc1, hc2⟩ := hcov (d + we * 60) (d + 1440) hm1 hm2
    refine ⟨(max 0 (toSlot base g (d + we * 60)), min horizon (toSlotCeil base g (d + 1440))),
      ?_, hc1, hc2⟩
    unfold cpBlocks
    rw [if_pos hactive]
    apply dayBlocks_sub_blocksFrom (base - minuteOfDay base) hday0led hdltstop hdmod
    unfold dayBlocks
    apply List.mem_append.mpr
    right
    unfold blockClamped
    rw [if_pos (by omega)]
    exact List.mem_singleton.mpr rfl

/-- At an optimal solution every tardiness variable is zero: since the
end-by-due-ceiling constraint already holds whenever a task is present, the
tardiness lower bound is non-positive, and a positive value could be lowered
to zero without violating any constraint, strictly improving the objective
when the tardiness weight and the priorities are positive. -/
theorem cpOptimal_tard_zero {cfg : CPConfig} {req : ScheduleRequest} {sol : CPSol}
    (hopt : cpOptimal cfg req sol) (hw : 0 < cfg.tardinessWeight)
    (hpri : ∀ t2 ∈ req.tasks, 1 ≤ t2.priority) {t : ScheduleTask} (ht : t ∈ req.tasks) :
    sol.tard t.taskId = 0 := by
  obtain ⟨hfeas, hmin⟩ := hopt
  by_contra hne
  have hspec := cpTaskOk_spec (cpFeasible_taskOk hfeas ht)
  have htpos : 0 < sol.tard t.taskId := by
    rcases lt_or_eq_of_le hspec.2.2.2.2.2.2.2.2.2.2.1 with h | h
    · exact h
    · exact absurd h.symm hne
  have hfeas2 : cpFeasible cfg req
      { startv := sol.startv
        stopv := sol.stopv
        presence := sol.presence
        tard := fun id => if id = t.taskId then 0 else sol.tard id
        dev := sol.dev } := by
    constructor
    · apply List.all_eq_true.mpr
      intro t2 ht2
      have h2 := cpFeasible_taskOk hfeas ht2
      have hspec2 := cpTaskOk_spec h2
      by_cases hid : t2.taskId = t.taskId
      · unfold cpTaskOkB at h2 ⊢
        simp only [Bool.and_eq_true, decide_eq_true_eq] at h2 ⊢
        obtain ⟨⟨⟨⟨⟨⟨⟨⟨⟨⟨⟨⟨⟨⟨⟨⟨g1, g2⟩, g3⟩, g4⟩, g5⟩, g6⟩, g7⟩, g8⟩, gfix⟩, gnew⟩, g9⟩,
          g10⟩, g11⟩, g12⟩, g13⟩, g14⟩, gdev⟩ := h2
        refine ⟨⟨⟨⟨⟨⟨⟨⟨⟨⟨⟨⟨⟨⟨⟨⟨g1, g2⟩, g3⟩, g4⟩, g5⟩, g6⟩, g7⟩, g8⟩, gfix⟩, gnew⟩, ?_⟩,
          ?_⟩, ?_⟩, ?_⟩, g13⟩, g14⟩, gdev⟩
        · rw [if_pos hid]
        · rw [if_pos hid]
          have := horizonSlots_ge_ten cfg.granularity req
          omega
        · intro hp
          rw [if_pos hid]
          have := hspec2.2.2.2.2.2.2.1 hp
          omega
        · intro hp
          rw [if_pos hid]
      · unfold cpTaskOkB at h2 ⊢
        simp only [Bool.and_eq_true, decide_eq_true_eq] at h2 ⊢
        rw [if_neg hid]
        exact h2
    · exact hfeas.2
  have hlt : cpObjective cfg req
      { startv := sol.startv
        stopv := sol.stopv
        presence := sol.presence
        tard := fun id => if id = t.taskId then 0 else sol.tard id
        dev := sol.dev } < cpObjective cfg req sol := by
    unfold cpObjective
    apply List.sum_lt_sum
    · intro t2 ht2
      have hp2 : 1 ≤ t2.priority := hpri t2 ht2
      have hspec2 := cpTaskOk_spec (cpFeasible_taskOk hfeas ht2)
      have htnn : 0 ≤ sol.tard t2.taskId := hspec2.2.2.2.2.2.2.2.2.2.2.1
      simp only []
      by_cases hid : t2.taskId = t.taskId
      · rw [if_pos hid, hid]
        have hnn2 : 0 ≤ cfg.tardinessWeight * t2.priority := by positivity
        have hnn3 : 0 ≤ sol.tard t.taskId := by omega
        nlinarith
      · rw [if_neg hid]
    · refine ⟨t, ht, ?_⟩
      have hred : (if t.taskId = t.taskId then (0 : Int) else sol.tard t.taskId) = 0 :=
        if_pos rfl
      have hp2 : 1 ≤ t.priority := hpri t ht
      have hpos : 0 < cfg.tardinessWeight * t.priority * sol.tard t.taskId := by positivity
      nlinarith [hred]
  have := hmin _ hfeas2
  omega

theorem list_isEmpty_false {α : Type} {l : List α} (h : l ≠ []) : ¬ l.isEmpty = true := by
  cases l with
  | nil => exact absurd rfl h
  | cons x xs => simp

/-- On a non-empty request the CP scheduler returns the decoded solution. -/
theorem cpSchedule_solved_parts (cfg : CPConfig) (req : ScheduleRequest) (sol : CPSol)
    (opt : Bool) (h : req.tasks ≠ []) :
    (cpSchedule cfg req (CPOutcome.solved sol opt)).assignments =
        (cpDecode cfg req sol).assignments ∧
      (cpSchedule cfg req (CPOutcome.solved sol opt)).unscheduledTasks =
        (cpDecode cfg req sol).unscheduledTasks := by
  unfold cpSchedule
  rw [if_neg (list_isEmpty_false h)]
  exact ⟨rfl, rfl⟩

/-- Decoded CP assignments are pairwise non-overlapping in time: the
optional-interval NoOverlap constraint separates the slot ranges of present
tasks, and the interval link converts slot separation into time separation. -/
theorem cpDecode_pairwise {cfg : CPConfig} {req : ScheduleRequest} {sol : CPSol}
    (hg : 0 < cfg.granularity) (hfeas : cpFeasible cfg req sol) :
    (cpDecode cfg req sol).assignments.Pairwise
      (fun a b => a.stop ≤ b.start ∨ b.stop ≤ a.start) := by
  have hnover := hfeas.2
  unfold cpIntervals at hnover
  rw [List.append_assoc] at hnover
  have htask := (List.pairwise_append.mp hnover).1
  have htask2 := List.pairwise_filterMap.mp htask
  unfold cpDecode
  simp only []
  refine ((List.perm_insertionSort _ _).pairwise_iff ?_).mpr ?_
  · intro a b hab
    rcases hab with h | h
    · exact Or.inr h
    · exact Or.inl h
  · rw [List.pairwise_filterMap]
    refine htask2.imp_of_mem ?_
    intro t1 t2 ht1 ht2 hcond a ha b hb
    by_cases hp1 : sol.presence t1.taskId = 0
    · rw [if_pos hp1] at ha
      cases ha
    · by_cases hp2 : sol.presence t2.taskId = 0
      · rw [if_pos hp2] at hb
        cases hb
      · rw [if_neg hp1] at ha
        rw [if_neg hp2] at hb
        have hs1 := cpTaskOk_spec (cpFeasible_taskOk hfeas ht1)
        have hs2 := cpTaskOk_spec (cpFeasible_taskOk hfeas ht2)
        have hp1e : sol.presence t1.taskId = 1 := by
          rcases hs1.2.2.2.2.1 with h | h
          · exact absurd h hp1
          · exact h
        have hp2e : sol.presence t2.taskId = 1 := by
          rcases hs2.2.2.2.2.1 with h | h
          · exact absurd h hp2
          · exact h
        have hd := hcond _
          (by rw [if_pos hp1e]; exact Option.mem_some_iff.mpr rfl) _
          (by rw [if_pos hp2e]; exact Option.mem_some_iff.mpr rfl)
        rw [Option.mem_some_iff] at ha hb
        subst ha
        subst hb
        have hlink1 := hs1.2.2.2.2.2.1 hp1e
        have hlink2 := hs2.2.2.2.2.2.1 hp2e
        simp only [slotDisjoint] at hd
        rcases hd with hd | hd
        · left
          show toDatetime (reqBase cfg.granularity req) cfg.granularity (sol.stopv t1.taskId) ≤
            toDatetime (reqBase cfg.granularity req) cfg.granularity (sol.startv t2.taskId)
          rw [hlink1]
          exact toDatetime_mono hg hd
        · right
          show toDatetime (reqBase cfg.granularity req) cfg.granularity (sol.stopv t2.taskId) ≤
            toDatetime (reqBase cfg.granularity req) cfg.granularity (sol.startv t1.taskId)
          rw [hlink2]
          exact toDatetime_mono hg hd

/-- One granule times the slot-rounded duration covers the raw duration. -/
theorem durationToSlots_mul_ge {g : Int} (hg : 0 < g) (m : Int) :
    m ≤ durationToSlots g m * g := by
  have h1 : m ≤ toDatetime 0 g (toSlotCeil 0 g m) := le_toDatetime_toSlotCeil hg
  have h2 : toDatetime 0 g (toSlotCeil 0 g m) = toSlotCeil 0 g m * g := by
    unfold toDatetime
    ring
  have h3 : toSlotCeil 0 g m ≤ durationToSlots g m := le_max_right 1 _
  have h4 : toSlotCeil 0 g m * g ≤ durationToSlots g m * g :=
    mul_le_mul_of_nonneg_right h3 (by omega)
  omega

/-- Common facts about every decoded CP assignment of a feasible valuation:
its task, presence, exact field values, window bounds, and the absence of
overlap with meetings (whose start sits on the slot grid) and with
non-working minutes. -/
theorem cpDecode_facts {cfg : CPConfig} {req : ScheduleRequest} {sol : CPSol}
    (hg : 0 < cfg.granularity) (hfeas : cpFeasible cfg req sol)
    (hws : 0 ≤ cfg.workStart) (hwe : cfg.workStop ≤ 24)
    (hmeet : ∀ m ∈ req.meetings, m.start < m.stop) :
    ∀ a ∈ (cpDecode cfg req sol).assignments, ∃ t, t ∈ req.tasks ∧
      a.taskId = t.taskId ∧
      sol.presence t.taskId = 1 ∧
      a.start = toDatetime (reqBase cfg.granularity req) cfg.granularity
        (sol.startv t.taskId) ∧
      a.stop = toDatetime (reqBase cfg.granularity req) cfg.granularity
        (sol.startv t.taskId + cpDur cfg.granularity t) ∧
      a.tardinessMinutes = sol.tard t.taskId * cfg.granularity ∧
      cpEarliest (reqBase cfg.granularity req) cfg.granularity t ≤ sol.startv t.taskId ∧
      sol.startv t.taskId + cpDur cfg.granularity t ≤
        cpDueCeil (reqBase cfg.granularity req) cfg.granularity t ∧
      (∀ m ∈ req.meetings, (m.start - reqBase cfg.granularity req) % cfg.granularity = 0 →
        a.stop ≤ m.start ∨ m.stop ≤ a.start) ∧
      (∀ u, a.start ≤ u → u < a.stop →
        cfg.workStart * 60 ≤ minuteOfDay u ∧ minuteOfDay u < cfg.workStop * 60) := by
  intro a ha
  obtain ⟨t, ht, hp, haeq⟩ := cpDecode_assignment_mem ha
  have hspec := cpTaskOk_spec (cpFeasible_taskOk hfeas ht)
  have hp1 : sol.presence t.taskId = 1 := by
    rcases hspec.2.2.2.2.1 with h | h
    · exact absurd h hp
    · exact h
  have hlink := hspec.2.2.2.2.2.1 hp1
  have htid : a.taskId = t.taskId := by rw [haeq]
  have hstart : a.start = toDatetime (reqBase cfg.granularity req) cfg.granularity
      (sol.startv t.taskId) := by rw [haeq]
  have hstop : a.stop = toDatetime (reqBase cfg.granularity req) cfg.granularity
      (sol.startv t.taskId + cpDur cfg.granularity t) := by
    rw [haeq]
    show toDatetime (reqBase cfg.granularity req) cfg.granularity (sol.stopv t.taskId) = _
    rw [hlink]
  have htardm : a.tardinessMinutes = sol.tard t.taskId * cfg.granularity := by rw [haeq]
  have hE := hspec.1
  have hD : sol.startv t.taskId + cpDur cfg.granularity t ≤
      cpDueCeil (reqBase cfg.granularity req) cfg.granularity t := by
    have h2 := hspec.2.2.2.2.2.2.1 hp1
    omega
  have hH : sol.startv t.taskId + cpDur cfg.granularity t ≤ horizonSlots cfg.granularity req := by
    have h2 := hspec.2.2.2.1
    omega
  have hnover := hfeas.2
  have hsplit : cpIntervals cfg req sol =
      (req.tasks.filterMap (fun t2 =>
        if sol.presence t2.taskId = 1 then
          some (sol.startv t2.taskId, sol.startv t2.taskId + cpDur cfg.granularity t2)
        else none)) ++
        (req.meetings.map (cpMeetingInterval (reqBase cfg.granularity req) cfg.granularity) ++
          cpBlocks cfg.granularity cfg.workStart cfg.workStop (reqBase cfg.granularity req)
            (horizonSlots cfg.granularity req)) := by
    unfold cpIntervals
    rw [List.append_assoc]
  rw [hsplit] at hnover
  obtain ⟨hpT, hpMB, hcross⟩ := List.pairwise_append.mp hnover
  have htint : (sol.startv t.taskId, sol.startv t.taskId + cpDur cfg.granularity t) ∈
      req.tasks.filterMap (fun t2 =>
        if sol.presence t2.taskId = 1 then
          some (sol.startv t2.taskId, sol.startv t2.taskId + cpDur cfg.granularity t2)
        else none) :=
    List.mem_filterMap.mpr ⟨t, ht, by rw [if_pos hp1]⟩
  refine ⟨t, ht, htid, hp1, hstart, hstop, htardm, hE, hD, ?_, ?_⟩
  · -- no overlap with grid-aligned meetings
    intro m hm halign
    by_contra hc
    push_neg at hc
    obtain ⟨hc1, hc2⟩ := hc
    have hms := hmeet m hm
    have hdur1 : 1 ≤ cpDur cfg.granularity t := durationToSlots_pos _ _
    have hlt : a.start < a.stop := by
      rw [hstart, hstop]
      unfold toDatetime
      nlinarith
    have hu1 : a.start ≤ max a.start m.start := le_max_left _ _
    have hu2 : m.start ≤ max a.start m.start := le_max_right _ _
    have hu3 : max a.start m.start < a.stop := by
      rcases max_cases a.start m.start with ⟨h, _⟩ | ⟨h, _⟩ <;> omega
    have hu4 : max a.start m.start < m.stop := by
      rcases max_cases a.start m.start with ⟨h, _⟩ | ⟨h, _⟩ <;> omega
    have hk1 : sol.startv t.taskId ≤
        toSlot (reqBase cfg.granularity req) cfg.granularity (max a.start m.start) := by
      apply (le_toSlot_iff hg).mpr
      rw [← hstart]
      exact hu1
    have hk2 : toSlot (reqBase cfg.granularity req) cfg.granularity (max a.start m.start) <
        sol.startv t.taskId + cpDur cfg.granularity t := by
      apply (toSlot_lt_iff hg).mpr
      rw [← hstop]
      exact hu3
    have hk3 : toSlot (reqBase cfg.granularity req) cfg.granularity m.start ≤
        toSlot (reqBase cfg.granularity req) cfg.granularity (max a.start m.start) :=
      toSlot_mono hg hu2
    have hmseq : toDatetime (reqBase cfg.granularity req) cfg.granularity
        (toSlot (reqBase cfg.granularity req) cfg.granularity m.start) = m.start :=
      toDatetime_toSlot_eq hg halign
    have hcover : m.stop - m.start ≤ meetingDurSlots cfg.granularity m * cfg.granularity := by
      have h1 := durationToSlots_mul_ge hg (max 1 (m.stop - m.start))
      unfold meetingDurSlots
      have h2 : m.stop - m.start ≤ max 1 (m.stop - m.start) := le_max_right _ _
      omega
    have hmstop : m.stop ≤ toDatetime (reqBase cfg.granularity req) cfg.granularity
        (toSlot (reqBase cfg.granularity req) cfg.granularity m.start +
          meetingDurSlots cfg.granularity m) := by
      have h3 : toDatetime (reqBase cfg.granularity req) cfg.granularity
          (toSlot (reqBase cfg.granularity req) cfg.granularity m.start +
            meetingDurSlots cfg.granularity m) =
          toDatetime (reqBase cfg.granularity req) cfg.granularity
            (toSlot (reqBase cfg.granularity req) cfg.granularity m.start) +
            meetingDurSlots cfg.granularity m * cfg.granularity := by
        unfold toDatetime
        ring
      omega
    have hk4 : toSlot (reqBase cfg.granularity req) cfg.granularity (max a.start m.start) <
        toSlot (reqBase cfg.granularity req) cfg.granularity m.start +
          meetingDurSlots cfg.granularity m := by
      apply (toSlot_lt_iff hg).mpr
      omega
    have hd := hcross _ htint _ (List.mem_append.mpr (Or.inl
      (List.mem_map.mpr ⟨m, hm, rfl⟩)))
    simp only [slotDisjoint, cpMeetingInterval] at hd
    omega
  · -- inside working hours
    intro u hu1 hu2
    by_contra hcon
    have hout : minuteOfDay u < cfg.workStart * 60 ∨ cfg.workStop * 60 ≤ minuteOfDay u := by
      rcases not_and_or.mp hcon with h | h
      · left
        omega
      · right
        omega
    have hstartnn : 0 ≤ sol.startv t.taskId := le_trans (le_max_left 0 _) hE
    have h0 : toDatetime (reqBase cfg.granularity req) cfg.granularity 0 =
        reqBase cfg.granularity req := by
      unfold toDatetime
      ring
    have hbaseu : reqBase cfg.granularity req ≤ u := by
      have h1 := @toDatetime_mono (reqBase cfg.granularity req) cfg.granularity _ _ hg hstartnn
      rw [hstart] at hu1
      omega
    have huh : u < toDatetime (reqBase cfg.granularity req) cfg.granularity
        (horizonSlots cfg.granularity req) := by
      have h1 := @toDatetime_mono (reqBase cfg.granularity req) cfg.granularity _ _ hg hH
      rw [hstop] at hu2
      omega
    obtain ⟨b, hb, hb1, hb2⟩ := cpBlocks_cover hg hws hwe hbaseu huh hout
    have hk1 : sol.startv t.taskId ≤
        toSlot (reqBase cfg.granularity req) cfg.granularity u := by
      apply (le_toSlot_iff hg).mpr
      rw [← hstart]
      exact hu1
    have hk2 : toSlot (reqBase cfg.granularity req) cfg.granularity u <
        sol.startv t.taskId + cpDur cfg.granularity t := by
      apply (toSlot_lt_iff hg).mpr
      rw [← hstop]
      exact hu2
    have hd := hcross _ htint _ (List.mem_append.mpr (Or.inr hb))
    simp only [slotDisjoint] at hd
    omega

/-- A present task appears among the decoded assignments (at the quantized
start instant) and not among the unscheduled ids. -/
theorem cpDecode_present {cfg : CPConfig} {req : ScheduleRequest} {sol : CPSol}
    {t : ScheduleTask} (ht : t ∈ req.tasks) (hp : sol.presence t.taskId = 1) :
    (∃ a ∈ (cpDecode cfg req sol).assignments, a.taskId = t.taskId ∧
        a.start = toDatetime (reqBase cfg.granularity req) cfg.granularity
          (sol.startv t.taskId)) ∧
      t.taskId ∉ (cpDecode cfg req sol).unscheduledTasks := by
  constructor
  · refine ⟨{ taskId := t.taskId
              start := toDatetime (reqBase cfg.granularity req) cfg.granularity
                (sol.startv t.taskId)
              stop := toDatetime (reqBase cfg.granularity req) cfg.granularity
                (sol.stopv t.taskId)
              deviationMinutes := sol.dev t.taskId * cfg.granularity
              tardinessMinutes := sol.tard t.taskId * cfg.granularity }, ?_, rfl, rfl⟩
    unfold cpDecode
    simp only []
    apply (List.perm_insertionSort _ _).mem_iff.mpr
    apply List.mem_filterMap.mpr
    refine ⟨t, ht, ?_⟩
    rw [if_neg (by rw [hp]; exact one_ne_zero)]
  · intro hmem
    unfold cpDecode at hmem
    simp only [] at hmem
    obtain ⟨t2, ht2, heq⟩ := List.mem_filterMap.mp hmem
    by_cases hp2 : sol.presence t2.taskId = 0
    · rw [if_pos hp2] at heq
      have h3 := Option.some.inj heq
      rw [← h3] at hp
      rw [hp2] at hp
      exact absurd hp (by decide)
    · rw [if_neg hp2] at heq
      exact Option.noConfusion heq

/-- When every value of the mapping is a fixed point of the lookup (which the
service fan-out guarantees: the first segment of each task maps the root id
to itself), the defaulting lookup is idempotent. -/
theorem getRoot_fix {mapping : List (String × String)}
    (hroot : ∀ p ∈ mapping, getRoot mapping p.2 = p.2) (id : String) :
    getRoot mapping (getRoot mapping id) = getRoot mapping id := by
  cases hfind : mapping.find? (fun p => p.1 == id) with
  | none =>
    have h2 : getRoot mapping id = id := by
      unfold getRoot
      rw [hfind]
      rfl
    rw [h2]
    exact h2
  | some p =>
    have h2 : getRoot mapping id = p.2 := by
      unfold getRoot
      rw [hfind]
      rfl
    rw [h2]
    exact hroot p (List.mem_of_find?_eq_some hfind)

/-- Claim C2: for every positive total, the segmentation produces chunks in
[15, 120] whose sum is max(total, 15), hence exactly total when the total is
at least the minimum block length. -/
theorem claim2_segmentation (totalMinutes : Nat) (hpos : 0 < totalMinutes) :
    (∀ c ∈ segmentDuration totalMinutes, 15 ≤ c ∧ c ≤ 120) ∧
      (segmentDuration totalMinutes).sum = max totalMinutes 15 ∧
      (15 ≤ totalMinutes → (segmentDuration totalMinutes).sum = totalMinutes) := by
  obtain ⟨h1, h2⟩ := segChunks_spec (max totalMinutes 15) (Or.inr (le_max_right _ _))
  refine ⟨h1, h2, fun h15 => ?_⟩
  show (segChunks (max totalMinutes 15)).sum = totalMinutes
  rw [h2]
  exact Nat.max_eq_left h15

/-- Witness for C2 at total = 50. -/
theorem claim2_witness :
    0 < 50 ∧
      ((∀ c ∈ segmentDuration 50, 15 ≤ c ∧ c ≤ 120) ∧
        (segmentDuration 50).sum = max 50 15 ∧
        (15 ≤ 50 → (segmentDuration 50).sum = 50)) :=
  ⟨by decide, claim2_segmentation 50 (by decide)⟩

/-- Claim C7: on an empty task list both schedulers return the empty success
result with objective zero, whatever the solver outcome or iteration orders. -/
theorem claim7_empty_request (cfg : CPConfig) (cfg2 : SWOConfig) (req : ScheduleRequest)
    (outcome : CPOutcome) (orders : List (List ScheduleTask)) (h : req.tasks = []) :
    cpSchedule cfg req outcome =
        { assignments := [], unscheduledTasks := [], objectiveValue := some 0 } ∧
      swoSchedule cfg2 req orders =
        { assignments := [], unscheduledTasks := [], objectiveValue := some 0 } := by
  constructor
  · unfold cpSchedule
    rw [h]
    rfl
  · unfold swoSchedule
    rw [h]
    rfl

/-- Witness for C7 at a concrete empty request. -/
theorem claim7_witness :
    (ScheduleRequest.mk [] [] [] none).tasks = [] ∧
      (cpSchedule
          { granularity := 5, tardinessWeight := 200, stabilityWeight := 30,
            startTimeWeight := 1, unscheduledWeight := 10000, workStart := 9, workStop := 17 }
          (ScheduleRequest.mk [] [] [] none) CPOutcome.infeasible =
        { assignments := [], unscheduledTasks := [], objectiveValue := some 0 } ∧
      swoSchedule
          { granularity := 15, workStart := 9, workStop := 17, unscheduledPenalty := 10000 }
          (ScheduleRequest.mk [] [] [] none) [] =
        { assignments := [], unscheduledTasks := [], objectiveValue := some 0 }) :=
  ⟨rfl, claim7_empty_request _ _ _ _ _ rfl⟩

/-- Claim C9: the remap step replaces every assigned id by its root, returns
the unscheduled ids as a sorted deduplicated set of roots, and is idempotent
whenever every mapping value is itself a fixed point of the lookup, which is
how the service builds the segment-to-root mapping (the root id maps to
itself). -/
theorem claim9_remap (result : ScheduleResult) (mapping : List (String × String))
    (hroot : ∀ p ∈ mapping, getRoot mapping p.2 = p.2) :
    (remapScheduleResult result mapping).assignments =
        result.assignments.map (fun a => { a with taskId := getRoot mapping a.taskId }) ∧
      (remapScheduleResult result mapping).unscheduledTasks.Sorted (fun a b => a ≤ b) ∧
      (remapScheduleResult result mapping).unscheduledTasks.Nodup ∧
      (∀ id, id ∈ (remapScheduleResult result mapping).unscheduledTasks ↔
        ∃ s ∈ result.unscheduledTasks, getRoot mapping s = id) ∧
      remapScheduleResult (remapScheduleResult result mapping) mapping =
        remapScheduleResult result mapping := by
  have hperm := List.perm_insertionSort (fun a b : String => a ≤ b)
    ((result.unscheduledTasks.map (getRoot mapping)).dedup)
  have hsorted : (remapScheduleResult result mapping).unscheduledTasks.Sorted
      (fun a b : String => a ≤ b) := by
    show (((result.unscheduledTasks.map (getRoot mapping)).dedup).insertionSort
      (fun a b : String => a ≤ b)).Sorted (fun a b : String => a ≤ b)
    exact List.sorted_insertionSort _ _
  have hnodup : (remapScheduleResult result mapping).unscheduledTasks.Nodup := by
    show (((result.unscheduledTasks.map (getRoot mapping)).dedup).insertionSort
      (fun a b : String => a ≤ b)).Nodup
    exact hperm.nodup_iff.mpr (List.nodup_dedup _)
  have hmem : ∀ id, id ∈ (remapScheduleResult result mapping).unscheduledTasks ↔
      ∃ s ∈ result.unscheduledTasks, getRoot mapping s = id := by
    intro id
    show id ∈ ((result.unscheduledTasks.map (getRoot mapping)).dedup).insertionSort
      (fun a b : String => a ≤ b) ↔ _
    rw [hperm.mem_iff, List.mem_dedup, List.mem_map]
  refine ⟨rfl, hsorted, hnodup, hmem, ?_⟩
  have hA : (remapScheduleResult result mapping).assignments.map
      (fun a => { a with taskId := getRoot mapping a.taskId }) =
      (remapScheduleResult result mapping).assignments := by
    have h1 : ∀ a ∈ (remapScheduleResult result mapping).assignments,
        (fun a => ({ a with taskId := getRoot mapping a.taskId } : AssignedTask)) a = id a := by
      intro a ha
      obtain ⟨a0, ha0, heq⟩ := List.mem_map.mp ha
      rw [← heq]
      simp only [id]
      have := getRoot_fix hroot a0.taskId
      rw [this]
    rw [List.map_congr_left h1, List.map_id]
  have hU : ((remapScheduleResult result mapping).unscheduledTasks.map
        (getRoot mapping)).dedup.insertionSort (fun a b : String => a ≤ b) =
      (remapScheduleResult result mapping).unscheduledTasks := by
    have h1 : ∀ s ∈ (remapScheduleResult result mapping).unscheduledTasks,
        getRoot mapping s = id s := by
      intro s hs
      obtain ⟨s0, hs0, heq⟩ := (hmem s).mp hs
      rw [← heq]
      simp only [id]
      exact getRoot_fix hroot s0
    rw [List.map_congr_left h1, List.map_id,
      List.dedup_eq_self.mpr hnodup,
      List.Sorted.insertionSort_eq hsorted]
  show ScheduleResult.mk _ _ _ = _
  rw [hA, hU]

/-- Witness for C9 on a concrete service-style mapping. -/
theorem claim9_witness :
    (∀ p ∈ w9mapping, getRoot w9mapping p.2 = p.2) ∧
      ((remapScheduleResult w9result w9mapping).assignments =
          w9result.assignments.map
            (fun a => { a with taskId := getRoot w9mapping a.taskId }) ∧
        (remapScheduleResult w9result w9mapping).unscheduledTasks.Sorted (fun a b => a ≤ b) ∧
        (remapScheduleResult w9result w9mapping).unscheduledTasks.Nodup ∧
        (∀ id, id ∈ (remapScheduleResult w9result w9mapping).unscheduledTasks ↔
          ∃ s ∈ w9result.unscheduledTasks, getRoot w9mapping s = id) ∧
        remapScheduleResult (remapScheduleResult w9result w9mapping) w9mapping =
          remapScheduleResult w9result w9mapping) :=
  ⟨by decide, claim9_remap w9result w9mapping (by decide)⟩

/-- Claim C6: each SWO construction pass processes the current order by
folding the per-task step over the occupancy state, and the step assigns the
smallest slot of the window [earliest_slot, latest_start_slot] whose block
ends by the due slot and is entirely free, or, when no such slot exists,
appends the task to the unscheduled list and leaves the occupancy unchanged.
The horizon cap inside _find_slot is redundant under the invariant that the
due slot lies within the horizon. -/
theorem claim6_greedy_step (horizon : Int) (occ0 : Int → Bool) (infos : List SegmentInfo)
    (st : ConsState) (info : SegmentInfo) (hdue : info.dueSlot ≤ horizon) :
    constructSchedule horizon occ0 infos = infos.foldl (constructStep horizon) ⟨occ0, [], []⟩ ∧
      ((∃ s, ValidSlot info st.occ s) →
        ∃ s, ValidSlot info st.occ s ∧ (∀ u, ValidSlot info st.occ u → s ≤ u) ∧
          constructStep horizon st info =
            ⟨markRange st.occ s (s + info.durationSlots),
              st.assignments ++ [(info, s)], st.unscheduled⟩) ∧
      ((¬ ∃ s, ValidSlot info st.occ s) →
        constructStep horizon st info =
          ⟨st.occ, st.assignments, st.unscheduled ++ [info.task.taskId]⟩) := by
  refine ⟨rfl, ?_, ?_⟩
  · intro hex
    cases hfind : findSlot info st.occ horizon with
    | none =>
      exfalso
      obtain ⟨s, hs⟩ := hex
      obtain ⟨hs1, hs2, hs3, hs4⟩ := hs
      have hok : SlotOk info.dueSlot info.durationSlots
          (min info.latestStartSlot (horizon - info.durationSlots)) st.occ s :=
        ⟨by omega, hs3, hs4⟩
      exact findSlotFrom_none le_rfl hfind s hs1 hok
    | some s =>
      obtain ⟨hge, hok, hmin⟩ := findSlotFrom_some le_rfl hfind
      obtain ⟨hok1, hok2, hok3⟩ := hok
      refine ⟨s, ⟨hge, by omega, hok2, hok3⟩, ?_, ?_⟩
      · intro u hu
        obtain ⟨hu1, hu2, hu3, hu4⟩ := hu
        by_contra hc
        push_neg at hc
        exact hmin u hu1 hc ⟨by omega, hu3, hu4⟩
      · simp only [constructStep, hfind]
  · intro hnex
    cases hfind : findSlot info st.occ horizon with
    | some s =>
      exfalso
      obtain ⟨hge, hok, _⟩ := findSlotFrom_some le_rfl hfind
      obtain ⟨hok1, hok2, hok3⟩ := hok
      exact hnex ⟨s, hge, by omega, hok2, hok3⟩
    | none =>
      simp only [constructStep, hfind]

/-- Witness for C6 on a concrete free occupancy: slot 0 is chosen. -/
theorem claim6_witness :
    w6info.dueSlot ≤ 22 ∧
      (constructSchedule 22 w6state.occ [] =
          List.foldl (constructStep 22) ⟨w6state.occ, [], []⟩ [] ∧
        ((∃ s, ValidSlot w6info w6state.occ s) →
          ∃ s, ValidSlot w6info w6state.occ s ∧
            (∀ u, ValidSlot w6info w6state.occ u → s ≤ u) ∧
            constructStep 22 w6state w6info =
              ⟨markRange w6state.occ s (s + w6info.durationSlots),
                w6state.assignments ++ [(w6info, s)], w6state.unscheduled⟩) ∧
        ((¬ ∃ s, ValidSlot w6info w6state.occ s) →
          constructStep 22 w6state w6info =
            ⟨w6state.occ, w6state.assignments,
              w6state.unscheduled ++ [w6info.task.taskId]⟩)) :=
  ⟨by decide, claim6_greedy_step 22 w6state.occ [] w6state w6info (by decide)⟩

/-- Claim C10: every SWO assignment ends at or before the slot ceiling of
its task due instant, so its tardiness is less than one granule. -/
theorem claim10_swo_deadline (cfg2 : SWOConfig) (req : ScheduleRequest)
    (orders : List (List ScheduleTask)) (hg2 : 0 < cfg2.granularity)
    (hg60 : cfg2.granularity ∣ 60) (hws : 0 ≤ cfg2.workStart) (hwe : cfg2.workStop ≤ 24)
    (hmeet : ∀ m ∈ req.meetings, m.start < m.stop)
    (horders : ∀ o ∈ orders, ∀ t ∈ o, t ∈ req.tasks) (hne : req.tasks ≠ []) :
    ∀ a ∈ (swoSchedule cfg2 req orders).assignments, ∃ t, t ∈ req.tasks ∧
      a.taskId = t.taskId ∧
      a.stop ≤ toDatetime (reqBase cfg2.granularity req) cfg2.granularity
        (toSlotCeil (reqBase cfg2.granularity req) cfg2.granularity t.due) ∧
      a.tardinessMinutes < cfg2.granularity := by
  intro a ha
  rcases swoSchedule_cases cfg2 req orders with hcase | ⟨order, horder, hcase⟩
  · rw [hcase] at ha
    cases ha
  · rw [hcase] at ha
    obtain ⟨-, hfacts⟩ :=
      swoIteration_spec cfg2 req order hg2 hg60 hws hwe hmeet (horders order horder)
    obtain ⟨t, ht, htid, hdur, hes, htardeq, hstople, htardlt, hmeets, hwork⟩ := hfacts a ha
    exact ⟨t, ht, htid, hstople, htardlt⟩

/-- Witness for C10 on the one-task request. -/
theorem claim10_witness :
    (0 < wswoCfg.granularity ∧ wswoCfg.granularity ∣ 60 ∧ 0 ≤ wswoCfg.workStart ∧
        wswoCfg.workStop ≤ 24 ∧ (∀ m ∈ wReq.meetings, m.start < m.stop) ∧
        (∀ o ∈ [[wTask]], ∀ t ∈ o, t ∈ wReq.tasks) ∧ wReq.tasks ≠ []) ∧
      ∀ a ∈ (swoSchedule wswoCfg wReq [[wTask]]).assignments, ∃ t, t ∈ wReq.tasks ∧
        a.taskId = t.taskId ∧
        a.stop ≤ toDatetime (reqBase wswoCfg.granularity wReq) wswoCfg.granularity
          (toSlotCeil (reqBase wswoCfg.granularity wReq) wswoCfg.granularity t.due) ∧
        a.tardinessMinutes < wswoCfg.granularity :=
  ⟨⟨by decide, by decide, by decide, by decide, by decide, by decide, by decide⟩,
    claim10_swo_deadline wswoCfg wReq [[wTask]] (by decide) (by decide) (by decide)
      (by decide) (by decide) (by decide) (by decide)⟩

/-- The CP scheduler returns no assignments on an empty task list. -/
theorem cpSchedule_empty_assignments (cfg : CPConfig) (req : ScheduleRequest)
    (outcome : CPOutcome) (h : req.tasks = []) :
    (cpSchedule cfg req outcome).assignments = [] := by
  unfold cpSchedule
  rw [h]
  rfl

/-- Claim C1: within one ScheduleResult of either scheduler the half-open
assignment intervals are pairwise non-overlapping.  The CP side holds for
every feasible solver valuation through the NoOverlap constraint; the SWO
side holds for every sequence of construction orders over the request tasks
through the occupancy bitmap. -/
theorem claim1_nonoverlap (cfg : CPConfig) (cfg2 : SWOConfig) (req : ScheduleRequest)
    (sol : CPSol) (opt : Bool) (orders : List (List ScheduleTask))
    (hg : 0 < cfg.granularity)
    (hnodup : (req.tasks.map (fun t => t.taskId)).Nodup)
    (hfeas : cpFeasible cfg req sol)
    (hg2 : 0 < cfg2.granularity) (hg60 : cfg2.granularity ∣ 60)
    (hws2 : 0 ≤ cfg2.workStart) (hwe2 : cfg2.workStop ≤ 24)
    (hmeet : ∀ m ∈ req.meetings, m.start < m.stop)
    (horders : ∀ o ∈ orders, ∀ t ∈ o, t ∈ req.tasks) :
    (cpSchedule cfg req (CPOutcome.solved sol opt)).assignments.Pairwise
        (fun a b => a.stop ≤ b.start ∨ b.stop ≤ a.start) ∧
      (swoSchedule cfg2 req orders).assignments.Pairwise
        (fun a b => a.stop ≤ b.start ∨ b.stop ≤ a.start) := by
  constructor
  · by_cases hempty : req.tasks = []
    · rw [cpSchedule_empty_assignments cfg req _ hempty]
      exact List.Pairwise.nil
    · rw [(cpSchedule_solved_parts cfg req sol opt hempty).1]
      exact cpDecode_pairwise hg hfeas
  · rcases swoSchedule_cases cfg2 req orders with hcase | ⟨order, horder, hcase⟩
    · rw [hcase]
      exact List.Pairwise.nil
    · rw [hcase]
      exact (swoIteration_spec cfg2 req order hg2 hg60 hws2 hwe2 hmeet
        (horders order horder)).1

/-- Witness for C1 on the one-task request and its feasible valuation. -/
theorem claim1_witness :
    (0 < wcpCfg.granularity ∧ (wReq.tasks.map (fun t => t.taskId)).Nodup ∧
        cpFeasible wcpCfg wReq wSol ∧ 0 < wswoCfg.granularity ∧ wswoCfg.granularity ∣ 60 ∧
        0 ≤ wswoCfg.workStart ∧ wswoCfg.workStop ≤ 24 ∧
        (∀ m ∈ wReq.meetings, m.start < m.stop) ∧
        (∀ o ∈ [[wTask]], ∀ t ∈ o, t ∈ wReq.tasks)) ∧
      ((cpSchedule wcpCfg wReq (CPOutcome.solved wSol true)).assignments.Pairwise
          (fun a b => a.stop ≤ b.start ∨ b.stop ≤ a.start) ∧
        (swoSchedule wswoCfg wReq [[wTask]]).assignments.Pairwise
          (fun a b => a.stop ≤ b.start ∨ b.stop ≤ a.start)) :=
  ⟨⟨by decide, by decide, ⟨by decide, by decide⟩, by decide, by decide, by decide, by decide,
      by decide, by decide⟩,
    claim1_nonoverlap wcpCfg wswoCfg wReq wSol true [[wTask]] (by decide) (by decide)
      ⟨by decide, by decide⟩ (by decide) (by decide) (by decide) (by decide) (by decide)
      (by decide)⟩

/-- The valuation wSol is optimal for wReq: its objective is zero while
every feasible valuation has a non-negative objective (all variables are
constrained non-negative and the presence literal is at most one). -/
theorem wSol_optimal : cpOptimal wcpCfg wReq wSol := by
  refine ⟨⟨by decide, by decide⟩, ?_⟩
  intro s2 hfeas2
  have hspec := cpTaskOk_spec (cpFeasible_taskOk hfeas2
    (show wTask ∈ wReq.tasks from List.mem_singleton.mpr rfl))
  have hobj : cpObjective wcpCfg wReq wSol = 0 := by decide
  rw [hobj]
  have hform : cpObjective wcpCfg wReq s2 =
      wcpCfg.unscheduledWeight * (1 - s2.presence wTask.taskId) +
        wcpCfg.tardinessWeight * wTask.priority * s2.tard wTask.taskId +
        wcpCfg.stabilityWeight * s2.dev wTask.taskId +
        wcpCfg.startTimeWeight * wTask.priority * s2.startv wTask.taskId + 0 := rfl
  rw [hform]
  have hE0 : cpEarliest (reqBase wcpCfg.granularity wReq) wcpCfg.granularity wTask = 0 := by
    decide
  have h1 := hspec.1
  rw [hE0] at h1
  have h2 := hspec.2.2.2.2.1
  have h3 := hspec.2.2.2.2.2.2.2.2.2.2.1
  have h4 := hspec.2.2.2.2.2.2.2.2.2.2.2.2.2.2.1
  have hw1 : wcpCfg.unscheduledWeight = 10000 := rfl
  have hw2 : wcpCfg.tardinessWeight = 200 := rfl
  have hw3 : wcpCfg.stabilityWeight = 30 := rfl
  have hw4 : wcpCfg.startTimeWeight = 1 := rfl
  have hw5 : wTask.priority = 5 := rfl
  rw [hw1, hw2, hw3, hw4, hw5]
  omega

/-- Counterexample to C3 as stated: on an earliest start that is off the
slot grid, the CP model floors the earliest slot, and a feasible (indeed
start-minimal) valuation places the task before its earliest start. -/
theorem claim3_counterexample :
    cpFeasible wcpCfg cxReq3 cxSol3 ∧
      ∃ a ∈ (cpSchedule wcpCfg cxReq3 (CPOutcome.solved cxSol3 true)).assignments,
        a.taskId = cxTask3.taskId ∧ a.start < cxTask3.earliestStart :=
  ⟨⟨by decide, by decide⟩, by decide⟩

/-- Claim C3 (amended): the SWO scheduler always starts tasks at or after
their earliest start and reports the exact tardiness of the end against the
due instant.  The CP scheduler guarantees the earliest-start bound for tasks
whose earliest start lies on the slot grid, and reports the exact tardiness
(zero, as every present task must end by the due ceiling) at any optimal
valuation for tasks whose due lies on the slot grid. -/
theorem claim3_start_tardiness (cfg : CPConfig) (cfg2 : SWOConfig) (req : ScheduleRequest)
    (sol : CPSol) (opt : Bool) (orders : List (List ScheduleTask))
    (hg : 0 < cfg.granularity)
    (hopt : cpOptimal cfg req sol)
    (hw : 0 < cfg.tardinessWeight)
    (hpri : ∀ t2 ∈ req.tasks, 1 ≤ t2.priority)
    (hws : 0 ≤ cfg.workStart) (hwe : cfg.workStop ≤ 24)
    (hg2 : 0 < cfg2.granularity) (hg60 : cfg2.granularity ∣ 60)
    (hws2 : 0 ≤ cfg2.workStart) (hwe2 : cfg2.workStop ≤ 24)
    (hmeet : ∀ m ∈ req.meetings, m.start < m.stop)
    (horders : ∀ o ∈ orders, ∀ t ∈ o, t ∈ req.tasks) :
    (∀ a ∈ (swoSchedule cfg2 req orders).assignments, ∃ t, t ∈ req.tasks ∧
        a.taskId = t.taskId ∧ t.earliestStart ≤ a.start ∧
        a.tardinessMinutes = max 0 (a.stop - t.due)) ∧
      (∀ a ∈ (cpSchedule cfg req (CPOutcome.solved sol opt)).assignments, ∃ t, t ∈ req.tasks ∧
        a.taskId = t.taskId ∧
        ((t.earliestStart - reqBase cfg.granularity req) % cfg.granularity = 0 →
          t.earliestStart ≤ a.start) ∧
        ((t.due - reqBase cfg.granularity req) % cfg.granularity = 0 →
          a.tardinessMinutes = max 0 (a.stop - t.due))) := by
  constructor
  · intro a ha
    rcases swoSchedule_cases cfg2 req orders with hcase | ⟨order, horder, hcase⟩
    · rw [hcase] at ha
      cases ha
    · rw [hcase] at ha
      obtain ⟨-, hfacts⟩ :=
        swoIteration_spec cfg2 req order hg2 hg60 hws2 hwe2 hmeet (horders order horder)
      obtain ⟨t, ht, htid, hdur, hes, htardeq, hstople, htardlt, hmeets, hwork⟩ := hfacts a ha
      exact ⟨t, ht, htid, hes, htardeq⟩
  · intro a ha
    by_cases hempty : req.tasks = []
    · rw [cpSchedule_empty_assignments cfg req _ hempty] at ha
      cases ha
    · rw [(cpSchedule_solved_parts cfg req sol opt hempty).1] at ha
      obtain ⟨t, ht, htid, hp1, hstart, hstop, htardm, hE, hD, hmeets, hwork⟩ :=
        cpDecode_facts hg hopt.1 hws hwe hmeet a ha
      refine ⟨t, ht, htid, ?_, ?_⟩
      · intro halign
        have h1 : toSlot (reqBase cfg.granularity req) cfg.granularity t.earliestStart ≤
            sol.startv t.taskId := by
          have h2 : toSlot (reqBase cfg.granularity req) cfg.granularity t.earliestStart ≤
              cpEarliest (reqBase cfg.granularity req) cfg.granularity t := le_max_right 0 _
          omega
        have h3 := @toDatetime_mono (reqBase cfg.granularity req) cfg.granularity _ _ hg h1
        rw [toDatetime_toSlot_eq hg halign] at h3
        rw [hstart]
        exact h3
      · intro halign
        have htz := cpOptimal_tard_zero hopt hw hpri ht
        have hstople : a.stop ≤ t.due := by
          have hD2 : sol.startv t.taskId + cpDur cfg.granularity t ≤
              toSlotCeil (reqBase cfg.granularity req) cfg.granularity t.due := hD
          have h3 := @toDatetime_mono (reqBase cfg.granularity req) cfg.granularity _ _ hg hD2
          rw [toDatetime_toSlotCeil_eq hg halign] at h3
          rw [hstop]
          exact h3
        rw [htardm, htz]
        omega

/-- Witness for the amended C3 on the one-task request with the optimal
valuation. -/
theorem claim3_witness :
    (0 < wcpCfg.granularity ∧ cpOptimal wcpCfg wReq wSol ∧ 0 < wcpCfg.tardinessWeight ∧
        (∀ t2 ∈ wReq.tasks, 1 ≤ t2.priority) ∧ 0 ≤ wcpCfg.workStart ∧ wcpCfg.workStop ≤ 24 ∧
        0 < wswoCfg.granularity ∧ wswoCfg.granularity ∣ 60 ∧ 0 ≤ wswoCfg.workStart ∧
        wswoCfg.workStop ≤ 24 ∧ (∀ m ∈ wReq.meetings, m.start < m.stop) ∧
        (∀ o ∈ [[wTask]], ∀ t ∈ o, t ∈ wReq.tasks)) ∧
      ((∀ a ∈ (swoSchedule wswoCfg wReq [[wTask]]).assignments, ∃ t, t ∈ wReq.tasks ∧
          a.taskId = t.taskId ∧ t.earliestStart ≤ a.start ∧
          a.tardinessMinutes = max 0 (a.stop - t.due)) ∧
        (∀ a ∈ (cpSchedule wcpCfg wReq (CPOutcome.solved wSol true)).assignments,
          ∃ t, t ∈ wReq.tasks ∧ a.taskId = t.taskId ∧
          ((t.earliestStart - reqBase wcpCfg.granularity wReq) % wcpCfg.granularity = 0 →
            t.earliestStart ≤ a.start) ∧
          ((t.due - reqBase wcpCfg.granularity wReq) % wcpCfg.granularity = 0 →
            a.tardinessMinutes = max 0 (a.stop - t.due)))) :=
  ⟨⟨by decide, wSol_optimal, by decide, by decide, by decide, by decide, by decide,
      by decide, by decide, by decide, by decide, by decide⟩,
    claim3_start_tardiness wcpCfg wswoCfg wReq wSol true [[wTask]] (by decide) wSol_optimal
      (by decide) (by decide) (by decide) (by decide) (by decide) (by decide) (by decide)
      (by decide) (by decide) (by decide)⟩

/-- Counterexample to C4 as stated: a 50-minute task is stretched to the
slot-rounded 60 minutes at the 15-minute SWO granularity. -/
theorem claim4_counterexample :
    cxTask4.durationMinutes = 50 ∧
      ∃ a ∈ (swoSchedule wswoCfg cxReq4 [[cxTask4]]).assignments,
        a.taskId = cxTask4.taskId ∧ a.stop - a.start ≠ cxTask4.durationMinutes := by
  exact ⟨by decide, by decide⟩

/-- Claim C4 (amended): every returned assignment spans exactly the
slot-rounded segment duration duration_to_slots(duration) granules (which
equals duration_minutes exactly when the granularity divides it), and
intersects no non-working minute; it intersects no meeting, for the CP
scheduler provided the meeting start lies on the slot grid, for the SWO
scheduler unconditionally. -/
theorem claim4_duration_blocks (cfg : CPConfig) (cfg2 : SWOConfig) (req : ScheduleRequest)
    (sol : CPSol) (opt : Bool) (orders : List (List ScheduleTask))
    (hg : 0 < cfg.granularity) (hfeas : cpFeasible cfg req sol)
    (hws : 0 ≤ cfg.workStart) (hwe : cfg.workStop ≤ 24)
    (hg2 : 0 < cfg2.granularity) (hg60 : cfg2.granularity ∣ 60)
    (hws2 : 0 ≤ cfg2.workStart) (hwe2 : cfg2.workStop ≤ 24)
    (hmeet : ∀ m ∈ req.meetings, m.start < m.stop)
    (horders : ∀ o ∈ orders, ∀ t ∈ o, t ∈ req.tasks) :
    (∀ a ∈ (swoSchedule cfg2 req orders).assignments, ∃ t, t ∈ req.tasks ∧
        a.taskId = t.taskId ∧
        a.stop - a.start = durationToSlots cfg2.granularity t.durationMinutes *
          cfg2.granularity ∧
        (∀ m ∈ req.meetings, a.stop ≤ m.start ∨ m.stop ≤ a.start) ∧
        (∀ u, a.start ≤ u → u < a.stop →
          cfg2.workStart * 60 ≤ minuteOfDay u ∧ minuteOfDay u < cfg2.workStop * 60)) ∧
      (∀ a ∈ (cpSchedule cfg req (CPOutcome.solved sol opt)).assignments, ∃ t, t ∈ req.tasks ∧
        a.taskId = t.taskId ∧
        a.stop - a.start = durationToSlots cfg.granularity t.durationMinutes *
          cfg.granularity ∧
        (∀ m ∈ req.meetings, (m.start - reqBase cfg.granularity req) % cfg.granularity = 0 →
          a.stop ≤ m.start ∨ m.stop ≤ a.start) ∧
        (∀ u, a.start ≤ u → u < a.stop →
          cfg.workStart * 60 ≤ minuteOfDay u ∧ minuteOfDay u < cfg.workStop * 60)) := by
  constructor
  · intro a ha
    rcases swoSchedule_cases cfg2 req orders with hcase | ⟨order, horder, hcase⟩
    · rw [hcase] at ha
      cases ha
    · rw [hcase] at ha
      obtain ⟨-, hfacts⟩ :=
        swoIteration_spec cfg2 req order hg2 hg60 hws2 hwe2 hmeet (horders order horder)
      obtain ⟨t, ht, htid, hdur, hes, htardeq, hstople, htardlt, hmeets, hwork⟩ := hfacts a ha
      exact ⟨t, ht, htid, hdur, hmeets, hwork⟩
  · intro a ha
    by_cases hempty : req.tasks = []
    · rw [cpSchedule_empty_assignments cfg req _ hempty] at ha
      cases ha
    · rw [(cpSchedule_solved_parts cfg req sol opt hempty).1] at ha
      obtain ⟨t, ht, htid, hp1, hstart, hstop, htardm, hE, hD, hmeets, hwork⟩ :=
        cpDecode_facts hg hfeas hws hwe hmeet a ha
      refine ⟨t, ht, htid, ?_, hmeets, hwork⟩
      rw [hstart, hstop]
      show toDatetime (reqBase cfg.granularity req) cfg.granularity
          (sol.startv t.taskId + durationToSlots cfg.granularity t.durationMinutes) -
          toDatetime (reqBase cfg.granularity req) cfg.granularity (sol.startv t.taskId) = _
      unfold toDatetime
      ring

/-- Witness for the amended C4 on the one-task request. -/
theorem claim4_witness :
    (0 < wcpCfg.granularity ∧ cpFeasible wcpCfg wReq wSol ∧ 0 ≤ wcpCfg.workStart ∧
        wcpCfg.workStop ≤ 24 ∧ 0 < wswoCfg.granularity ∧ wswoCfg.granularity ∣ 60 ∧
        0 ≤ wswoCfg.workStart ∧ wswoCfg.workStop ≤ 24 ∧
        (∀ m ∈ wReq.meetings, m.start < m.stop) ∧
        (∀ o ∈ [[wTask]], ∀ t ∈ o, t ∈ wReq.tasks)) ∧
      ((∀ a ∈ (swoSchedule wswoCfg wReq [[wTask]]).assignments, ∃ t, t ∈ wReq.tasks ∧
          a.taskId = t.taskId ∧
          a.stop - a.start = durationToSlots wswoCfg.granularity t.durationMinutes *
            wswoCfg.granularity ∧
          (∀ m ∈ wReq.meetings, a.stop ≤ m.start ∨ m.stop ≤ a.start) ∧
          (∀ u, a.start ≤ u → u < a.stop →
            wswoCfg.workStart * 60 ≤ minuteOfDay u ∧ minuteOfDay u < wswoCfg.workStop * 60)) ∧
        (∀ a ∈ (cpSchedule wcpCfg wReq (CPOutcome.solved wSol true)).assignments,
          ∃ t, t ∈ wReq.tasks ∧ a.taskId = t.taskId ∧
          a.stop - a.start = durationToSlots wcpCfg.granularity t.durationMinutes *
            wcpCfg.granularity ∧
          (∀ m ∈ wReq.meetings,
            (m.start - reqBase wcpCfg.granularity wReq) % wcpCfg.granularity = 0 →
            a.stop ≤ m.start ∨ m.stop ≤ a.start) ∧
          (∀ u, a.start ≤ u → u < a.stop →
            wcpCfg.workStart * 60 ≤ minuteOfDay u ∧ minuteOfDay u < wcpCfg.workStop * 60))) :=
  ⟨⟨by decide, ⟨by decide, by decide⟩, by decide, by decide, by decide, by decide, by decide,
      by decide, by decide, by decide⟩,
    claim4_duration_blocks wcpCfg wswoCfg wReq wSol true [[wTask]] (by decide)
      ⟨by decide, by decide⟩ (by decide) (by decide) (by decide) (by decide) (by decide)
      (by decide) (by decide) (by decide)⟩

/-- Counterexample to C5 as stated: with an off-grid previous start 09:03
pinned outside the neighborhood window, every feasible valuation pins the
task to the floor slot of the previous start, so the decoded start is 09:00,
not exactly the previous start. -/
theorem claim5_counterexample :
    cpFeasible wcpCfg cxReq5 cxSol5 ∧
      cxTask5.fixedStart = none ∧
      cxReq5.neighborhoodWindow = some (600, 660) ∧
      lookupPrev cxReq5.previousAssignments cxTask5.taskId = some (543, 558) ∧
      (¬ (toSlot (reqBase wcpCfg.granularity cxReq5) wcpCfg.granularity 600 ≤
            toSlot (reqBase wcpCfg.granularity cxReq5) wcpCfg.granularity 543 ∧
          toSlot (reqBase wcpCfg.granularity cxReq5) wcpCfg.granularity 543 ≤
            toSlotCeil (reqBase wcpCfg.granularity cxReq5) wcpCfg.granularity 660)) ∧
      (∃ a ∈ (cpSchedule wcpCfg cxReq5 (CPOutcome.solved cxSol5 true)).assignments,
        a.taskId = cxTask5.taskId) ∧
      ¬ ∃ a ∈ (cpSchedule wcpCfg cxReq5 (CPOutcome.solved cxSol5 true)).assignments,
        a.taskId = cxTask5.taskId ∧ a.start = 543 :=
  ⟨⟨by decide, by decide⟩, by decide, by decide, by decide, by decide, by decide, by decide⟩

/-- Claim C5 (amended): under a neighborhood window, a task with no fixed
start and a previous assignment whose previous start slot falls outside the
inclusive window slot range is pinned by every feasible valuation: it is
present, appears among the assignments (not among the unscheduled ids) with
start exactly at the previous start slot, i.e. at the slot-quantized
previous start instant, which is the previous start itself whenever that
instant lies on the slot grid. -/
theorem claim5_pin (cfg : CPConfig) (req : ScheduleRequest) (sol : CPSol) (opt : Bool)
    (t : ScheduleTask) (w : Int × Int) (pv : Int × Int)
    (hg : 0 < cfg.granularity) (hfeas : cpFeasible cfg req sol)
    (ht : t ∈ req.tasks) (hfix : t.fixedStart = none)
    (hw : req.neighborhoodWindow = some w)
    (hpv : lookupPrev req.previousAssignments t.taskId = some pv)
    (hout : ¬ (toSlot (reqBase cfg.granularity req) cfg.granularity w.1 ≤
        toSlot (reqBase cfg.granularity req) cfg.granularity pv.1 ∧
      toSlot (reqBase cfg.granularity req) cfg.granularity pv.1 ≤
        toSlotCeil (reqBase cfg.granularity req) cfg.granularity w.2)) :
    sol.startv t.taskId = toSlot (reqBase cfg.granularity req) cfg.granularity pv.1 ∧
      sol.presence t.taskId = 1 ∧
      (∃ a ∈ (cpSchedule cfg req (CPOutcome.solved sol opt)).assignments,
        a.taskId = t.taskId ∧
        a.start = toDatetime (reqBase cfg.granularity req) cfg.granularity
          (toSlot (reqBase cfg.granularity req) cfg.granularity pv.1)) ∧
      t.taskId ∉ (cpSchedule cfg req (CPOutcome.solved sol opt)).unscheduledTasks ∧
      ((pv.1 - reqBase cfg.granularity req) % cfg.granularity = 0 →
        ∃ a ∈ (cpSchedule cfg req (CPOutcome.solved sol opt)).assignments,
          a.taskId = t.taskId ∧ a.start = pv.1) := by
  have hne : req.tasks ≠ [] := by
    intro hc
    rw [hc] at ht
    cases ht
  have hspec := cpTaskOk_spec (cpFeasible_taskOk hfeas ht)
  have hpin := hspec.2.2.2.2.2.2.2.2.1 w
    (toSlot (reqBase cfg.granularity req) cfg.granularity pv.1) hfix hw
    (by rw [hpv]; rfl) hout
  obtain ⟨hstart, hp1⟩ := hpin
  obtain ⟨hparts1, hparts2⟩ := cpSchedule_solved_parts cfg req sol opt hne
  obtain ⟨⟨a, hamem, haid, hastart⟩, hnun⟩ := @cpDecode_present cfg req sol t ht hp1
  refine ⟨hstart, hp1, ?_, ?_, ?_⟩
  · rw [hparts1]
    refine ⟨a, hamem, haid, ?_⟩
    rw [hastart, hstart]
  · rw [hparts2]
    exact hnun
  · intro halign
    rw [hparts1]
    refine ⟨a, hamem, haid, ?_⟩
    rw [hastart, hstart]
    exact toDatetime_toSlot_eq hg halign

/-- Witness for the amended C5 on a concrete pinned request. -/
theorem claim5_witness :
    (0 < wcpCfg.granularity ∧ cpFeasible wcpCfg cxReq5 cxSol5 ∧ cxTask5 ∈ cxReq5.tasks ∧
        cxTask5.fixedStart = none ∧ cxReq5.neighborhoodWindow = some (600, 660) ∧
        lookupPrev cxReq5.previousAssignments cxTask5.taskId = some (543, 558) ∧
        ¬ (toSlot (reqBase wcpCfg.granularity cxReq5) wcpCfg.granularity 600 ≤
            toSlot (reqBase wcpCfg.granularity cxReq5) wcpCfg.granularity 543 ∧
          toSlot (reqBase wcpCfg.granularity cxReq5) wcpCfg.granularity 543 ≤
            toSlotCeil (reqBase wcpCfg.granularity cxReq5) wcpCfg.granularity 660)) ∧
      (cxSol5.startv cxTask5.taskId =
          toSlot (reqBase wcpCfg.granularity cxReq5) wcpCfg.granularity 543 ∧
        cxSol5.presence cxTask5.taskId = 1 ∧
        (∃ a ∈ (cpSchedule wcpCfg cxReq5 (CPOutcome.solved cxSol5 true)).assignments,
          a.taskId = cxTask5.taskId ∧
          a.start = toDatetime (reqBase wcpCfg.granularity cxReq5) wcpCfg.granularity
            (toSlot (reqBase wcpCfg.granularity cxReq5) wcpCfg.granularity 543)) ∧
        cxTask5.taskId ∉
          (cpSchedule wcpCfg cxReq5 (CPOutcome.solved cxSol5 true)).unscheduledTasks ∧
        ((543 - reqBase wcpCfg.granularity cxReq5) % wcpCfg.granularity = 0 →
          ∃ a ∈ (cpSchedule wcpCfg cxReq5 (CPOutcome.solved cxSol5 true)).assignments,
            a.taskId = cxTask5.taskId ∧ a.start = 543)) :=
  ⟨⟨by decide, ⟨by decide, by decide⟩, by decide, by decide, by decide, by decide, by decide⟩,
    claim5_pin wcpCfg cxReq5 cxSol5 true cxTask5 (600, 660) (543, 558) (by decide)
      ⟨by decide, by decide⟩ (by decide) (by decide) (by decide) (by decide) (by decide)⟩

/-- Counterexample to C8 as stated: the SWO scheduler ignores fixed_start
entirely; a task fixed at 10:00 is assigned greedily at 09:00. -/
theorem claim8_counterexample :
    w8task.fixedStart = some 600 ∧
      (∃ a ∈ (swoSchedule wswoCfg w8req [[w8task]]).assignments, a.taskId = w8task.taskId) ∧
      ¬ ∃ a ∈ (swoSchedule wswoCfg w8req [[w8task]]).assignments,
        a.taskId = w8task.taskId ∧
        a.start = toDatetime (reqBase wswoCfg.granularity w8req) wswoCfg.granularity
          (toSlot (reqBase wswoCfg.granularity w8req) wswoCfg.granularity 600) :=
  ⟨by decide, by decide, by decide⟩

/-- Claim C8 (amended): the CP scheduler pins a fixed-start task exactly: in
every feasible valuation the task is present with start variable equal to
to_slot(fixed_start), it appears among the assignments at that slot instant
and never among the unscheduled ids.  The SWO scheduler does not implement
fixed_start. -/
theorem claim8_fixed (cfg : CPConfig) (req : ScheduleRequest) (sol : CPSol) (opt : Bool)
    (t : ScheduleTask) (f : Int)
    (hg : 0 < cfg.granularity) (hfeas : cpFeasible cfg req sol)
    (ht : t ∈ req.tasks) (hf : t.fixedStart = some f) :
    sol.startv t.taskId = toSlot (reqBase cfg.granularity req) cfg.granularity f ∧
      sol.presence t.taskId = 1 ∧
      (∃ a ∈ (cpSchedule cfg req (CPOutcome.solved sol opt)).assignments,
        a.taskId = t.taskId ∧
        a.start = toDatetime (reqBase cfg.granularity req) cfg.granularity
          (toSlot (reqBase cfg.granularity req) cfg.granularity f)) ∧
      t.taskId ∉ (cpSchedule cfg req (CPOutcome.solved sol opt)).unscheduledTasks := by
  have hne : req.tasks ≠ [] := by
    intro hc
    rw [hc] at ht
    cases ht
  have hspec := cpTaskOk_spec (cpFeasible_taskOk hfeas ht)
  obtain ⟨hstart, hp1⟩ := hspec.2.2.2.2.2.2.2.1 f hf
  obtain ⟨hparts1, hparts2⟩ := cpSchedule_solved_parts cfg req sol opt hne
  obtain ⟨⟨a, hamem, haid, hastart⟩, hnun⟩ := @cpDecode_present cfg req sol t ht hp1
  refine ⟨hstart, hp1, ?_, ?_⟩
  · rw [hparts1]
    refine ⟨a, hamem, haid, ?_⟩
    rw [hastart, hstart]
  · rw [hparts2]
    exact hnun

/-- Witness for the amended C8 on a concrete fixed-start request. -/
theorem claim8_witness :
    (0 < wcpCfg.granularity ∧ cpFeasible wcpCfg w8req w8sol ∧ w8task ∈ w8req.tasks ∧
        w8task.fixedStart = some 600) ∧
      (w8sol.startv w8task.taskId =
          toSlot (reqBase wcpCfg.granularity w8req) wcpCfg.granularity 600 ∧
        w8sol.presence w8task.taskId = 1 ∧
        (∃ a ∈ (cpSchedule wcpCfg w8req (CPOutcome.solved w8sol true)).assignments,
          a.taskId = w8task.taskId ∧
          a.start = toDatetime (reqBase wcpCfg.granularity w8req) wcpCfg.granularity
            (toSlot (reqBase wcpCfg.granularity w8req) wcpCfg.granularity 600)) ∧
        w8task.taskId ∉
          (cpSchedule wcpCfg w8req (CPOutcome.solved w8sol true)).unscheduledTasks) :=
  ⟨⟨by decide, ⟨by decide, by decide⟩, by decide, by decide⟩,
    claim8_fixed wcpCfg w8req w8sol true w8task 600 (by decide) ⟨by decide, by decide⟩
      (by decide) (by decide)⟩
